import Mathlib

/-!
# Core ledger engine of the btcb block lattice — shallow embedding

This file embeds the core ledger engine of the `bitcoin-black-bcb/btcb`
repository: the block-processing state machine, the rollback engine, the
representative-weight index with its bootstrap override, and the per-election
vote bookkeeping.  The repository snapshot ships only the test suite
`src/btcb/core_test/ledger.cpp`; the ledger implementation itself
(`btcb::ledger`, `btcb::ledger_processor`, the rollback visitor,
`btcb::election`) is not part of the snapshot.  Every operation below is
therefore modelled from the specification (`spec.md` sections 3, 4, 6), with
the behaviour pinned down by the assertions of the test suite wherever the two
disagree in detail.

Modelling conventions:
* 256-bit hashes and account public keys are `Nat` (0 is the null hash / burn
  account), 128-bit amounts are `Int` (the spec guarantees the total supply
  fits, so no wrap-around is modelled).
* The ed25519 verifier and the proof-of-work check are abstracted: each block
  carries the account key its signature actually verifies under (`signer`) and
  a `work_ok` flag, exactly the information the injected verifiers of spec
  section 2 item 3 provide to the processor.
* Block hashing is abstracted: `process` receives the canonical hash of the
  candidate block as a separate argument, and the block table is keyed by it.
* The spec's rollback engine recovers the pre-block balance, representative
  block, account and epoch of a stored block by chain queries
  (`balance(previous)`, `representative(previous)`, `account(source)`,
  section 4.2).  The store model keeps exactly those four derived values next
  to each stored block (`stored_block.account/balance/rep_block/version`), so
  the chain queries become direct lookups; on every reachable store the two
  presentations agree by construction.
-/

namespace Btcb

/-- A pointwise update of a one-argument table. -/
def upd1 {α : Type} (f : Nat → α) (k : Nat) (v : α) : Nat → α :=
  fun x => if x = k then v else f x

/-- A pointwise update of a two-argument table (used for the pending table,
keyed by destination account and send hash). -/
def upd2 {α : Type} (f : Nat → Nat → α) (k1 k2 : Nat) (v : α) : Nat → Nat → α :=
  fun x y => if x = k1 ∧ y = k2 then v else f x y

/-- Add `x` to the tracked weight of representative `a`
(`representation_add` of the store interface, spec section 6). -/
def repAdd (f : Nat → Int) (a : Nat) (x : Int) : Nat → Int :=
  upd1 f a (f a + x)

/-- Subtract `x` from the tracked weight of representative `a`. -/
def repSub (f : Nat → Int) (a : Nat) (x : Int) : Nat → Int :=
  upd1 f a (f a - x)

/-- The five block kinds of the block model (spec section 3).  Field names
follow the C++ block classes (`btcb::send_block` etc.); signature and work
live in the common header `Block`. -/
inductive block_kind : Type
  | send_block (previous : Nat) (destination : Nat) (balance : Int)
  | receive_block (previous : Nat) (source : Nat)
  | open_block (source : Nat) (representative : Nat) (account : Nat)
  | change_block (previous : Nat) (representative : Nat)
  | state_block (account : Nat) (previous : Nat) (representative : Nat)
      (balance : Int) (link : Nat)
deriving DecidableEq, Repr

/-- A block: the kind-specific fields plus the abstracted signature
(`signer` is the key the signature verifies under) and work validity. -/
structure Block : Type where
  work_ok : Bool
  signer : Nat
  kind : block_kind
deriving DecidableEq, Repr

/-- The representative named by a block; 0 for kinds that name none. -/
def block_representative : block_kind → Nat
  | .open_block _ r _ => r
  | .change_block _ r => r
  | .state_block _ _ r _ _ => r
  | _ => 0

/-- Whether a block is a state (universal) block. -/
def is_state : block_kind → Bool
  | .state_block _ _ _ _ _ => true
  | _ => false

/-- Per-account metadata (spec section 3 `AccountInfo`; the `modified`
timestamp is telemetry only and is not modelled). -/
structure account_info : Type where
  head : Nat
  rep_block : Nat
  open_block : Nat
  balance : Int
  block_count : Nat
  epoch : Nat
deriving DecidableEq, Repr

/-- An outstanding pending claim (spec section 3 `PendingEntry`), keyed
externally by (destination account, send hash). -/
structure pending_info : Type where
  source : Nat
  amount : Int
  epoch : Nat
deriving DecidableEq, Repr

/-- A block record as kept in the store: the block itself together with the
derived data the rollback engine recovers by chain queries in spec section
4.2 — the owning account, the balance after the block, the account's
representative block after the block, and the epoch under which the block was
stored. -/
structure stored_block : Type where
  blk : Block
  account : Nat
  balance : Int
  rep_block : Nat
  version : Nat
deriving DecidableEq, Repr

/-- The transactional table families of the abstract store (spec sections 3
and 6): accounts, blocks, pending claims, representation weights, frontier,
successor, the checksum accumulator and the total block count. -/
structure Store : Type where
  accounts : Nat → Option account_info
  blocks : Nat → Option stored_block
  pending : Nat → Nat → Option pending_info
  rep : Nat → Int
  frontier : Nat → Option Nat
  successor : Nat → Option Nat
  checksum : Nat
  count : Nat

/-- The closed result-code set of the processor (spec section 4.1). -/
inductive process_result : Type
  | progress
  | old
  | bad_signature
  | negative_spend
  | fork
  | unreceivable
  | gap_previous
  | gap_source
  | opened_burn_account
  | balance_mismatch
  | representative_mismatch
  | block_position
  | insufficient_work
deriving DecidableEq, Repr

/-- What a `process` call returns: the result code and the store after the
call (unchanged unless the code is `progress`). -/
structure process_return : Type where
  code : process_result
  store : Store

/-- Ledger-instance configuration: the designated epoch link value and epoch
signer key (the extra constructor arguments `123, epoch_key.pub` of the
epoch tests). -/
structure ledger_config : Type where
  epoch_link : Nat
  epoch_signer : Nat
deriving DecidableEq, Repr

/-- The representative named by the block stored at the given rep-block hash
(the `representative` chain query of the ledger, resolved at an account's
`rep_block`). -/
def rep_of (s : Store) (rb : Nat) : Nat :=
  match s.blocks rb with
  | some sb => block_representative sb.blk.kind
  | none => 0

/-- A legacy (non-state) block may not extend this account: its chain tip is
a state block, or its epoch has been upgraded (spec section 4.1, epoch rule,
and invariant I6). -/
def legacy_blocked (s : Store) (info : account_info) : Bool :=
  (match s.blocks info.head with
   | some sb => is_state sb.blk.kind
   | none => false) || decide (info.epoch ≠ 0)

/-- Recognise an epoch block: its link is the designated epoch link and its
signature verifies under the designated epoch signer (spec section 4.1,
state rules). -/
def is_epoch_block (cfg : ledger_config) (b : Block) (link : Nat) : Bool :=
  decide (link = cfg.epoch_link ∧ b.signer = cfg.epoch_signer)

/-- The store mutation shared by every chain-extending accepted block
(spec section 4.1 "Apply"): move the account head to the new block, store the
block with its derived record, move the tracked weight of the old
representative / new representative by old balance / new balance, update
frontier and successor, fold the hash into the checksum. -/
def extend_store (s : Store) (A h prev : Nat) (b : Block) (info : account_info)
    (nbal : Int) (nrb : Nat) (nep : Nat) (r_old r_new : Nat)
    (pend : Nat → Nat → Option pending_info) : Store :=
  { accounts := upd1 s.accounts A (some
      { head := h, rep_block := nrb, open_block := info.open_block,
        balance := nbal, block_count := info.block_count + 1, epoch := nep }),
    blocks := upd1 s.blocks h (some
      { blk := b, account := A, balance := nbal, rep_block := nrb, version := nep }),
    pending := pend,
    rep := repAdd (repSub s.rep r_old info.balance) r_new nbal,
    frontier := upd1 (upd1 s.frontier prev none) h (some A),
    successor := upd1 s.successor prev (some h),
    checksum := Nat.xor s.checksum h,
    count := s.count + 1 }

/-- The store mutation of an accepted account-opening block (legacy open,
state open, epoch open): create the account with head, open block and
rep block all at the new hash, credit the named representative. -/
def open_store (s : Store) (A h : Nat) (b : Block) (bal : Int) (r_new : Nat)
    (ep : Nat) (pend : Nat → Nat → Option pending_info) : Store :=
  { accounts := upd1 s.accounts A (some
      { head := h, rep_block := h, open_block := h,
        balance := bal, block_count := 1, epoch := ep }),
    blocks := upd1 s.blocks h (some
      { blk := b, account := A, balance := bal, rep_block := h, version := ep }),
    pending := pend,
    rep := repAdd s.rep r_new bal,
    frontier := upd1 s.frontier h (some A),
    successor := s.successor,
    checksum := Nat.xor s.checksum h,
    count := s.count + 1 }

/-- Legacy send (spec section 4.1): previous must exist and be a frontier
tip owned by the signer, the chain must still be legacy, and the new balance
may not exceed the previous one (an equal balance — a zero spend — is
accepted, see TEST ledger.epoch_blocks_fork).  On success a pending entry
keyed by (destination, hash) is created and the sender's representative
loses the sent amount. -/
def process_send (s : Store) (h : Nat) (b : Block) (prev dest : Nat)
    (bal : Int) : process_return :=
  match s.blocks prev with
  | none => ⟨.gap_previous, s⟩
  | some _ =>
    match s.frontier prev with
    | none => ⟨.fork, s⟩
    | some A =>
      if b.signer ≠ A then ⟨.bad_signature, s⟩ else
      match s.accounts A with
      | none => ⟨.gap_previous, s⟩
      | some info =>
        if info.head ≠ prev then ⟨.fork, s⟩ else
        if legacy_blocked s info then ⟨.block_position, s⟩ else
        if info.balance < bal then ⟨.negative_spend, s⟩ else
        ⟨.progress,
          extend_store s A h prev b info bal info.rep_block info.epoch
            (rep_of s info.rep_block) (rep_of s info.rep_block)
            (upd2 s.pending dest h (some
              { source := A, amount := info.balance - bal, epoch := info.epoch }))⟩

/-- Legacy receive (spec section 4.1): on top of the frontier checks, the
source block must exist (else `gap_source`), the pending entry keyed by
(account, source) must exist and still be an epoch-0 claim (else
`unreceivable`).  The claim's amount is credited to the balance and to the
account's representative. -/
def process_receive (s : Store) (h : Nat) (b : Block) (prev src : Nat) :
    process_return :=
  match s.blocks prev with
  | none => ⟨.gap_previous, s⟩
  | some _ =>
    match s.frontier prev with
    | none => ⟨.fork, s⟩
    | some A =>
      if b.signer ≠ A then ⟨.bad_signature, s⟩ else
      match s.accounts A with
      | none => ⟨.gap_previous, s⟩
      | some info =>
        if info.head ≠ prev then ⟨.fork, s⟩ else
        if legacy_blocked s info then ⟨.block_position, s⟩ else
        match s.blocks src with
        | none => ⟨.gap_source, s⟩
        | some _ =>
          match s.pending A src with
          | none => ⟨.unreceivable, s⟩
          | some p =>
            if p.epoch ≠ 0 then ⟨.unreceivable, s⟩ else
            ⟨.progress,
              extend_store s A h prev b info (info.balance + p.amount)
                info.rep_block info.epoch
                (rep_of s info.rep_block) (rep_of s info.rep_block)
                (upd2 s.pending A src none)⟩

/-- Legacy open (spec section 4.1): the account must not exist yet (else
`fork`), must not be the burn account, the source block must exist (else
`gap_source`) and the pending entry must exist as an epoch-0 claim (else
`unreceivable`).  The new account starts with the claimed amount delegated to
the named representative. -/
def process_open (s : Store) (h : Nat) (b : Block) (src rep acct : Nat) :
    process_return :=
  if b.signer ≠ acct then ⟨.bad_signature, s⟩ else
  if acct = 0 then ⟨.opened_burn_account, s⟩ else
  match s.accounts acct with
  | some _ => ⟨.fork, s⟩
  | none =>
    match s.blocks src with
    | none => ⟨.gap_source, s⟩
    | some _ =>
      match s.pending acct src with
      | none => ⟨.unreceivable, s⟩
      | some p =>
        if p.epoch ≠ 0 then ⟨.unreceivable, s⟩ else
        ⟨.progress,
          open_store s acct h b p.amount rep 0 (upd2 s.pending acct src none)⟩

/-- Legacy change (spec section 4.1): frontier checks as for send, then the
whole balance moves from the old representative to the new one and the
account's rep block becomes this block. -/
def process_change (s : Store) (h : Nat) (b : Block) (prev rep : Nat) :
    process_return :=
  match s.blocks prev with
  | none => ⟨.gap_previous, s⟩
  | some _ =>
    match s.frontier prev with
    | none => ⟨.fork, s⟩
    | some A =>
      if b.signer ≠ A then ⟨.bad_signature, s⟩ else
      match s.accounts A with
      | none => ⟨.gap_previous, s⟩
      | some info =>
        if info.head ≠ prev then ⟨.fork, s⟩ else
        if legacy_blocked s info then ⟨.block_position, s⟩ else
        ⟨.progress,
          extend_store s A h prev b info info.balance h info.epoch
            (rep_of s info.rep_block) rep s.pending⟩

/-- State block (spec section 4.1, state rules).  With a zero previous this
is an open (an epoch open when the link and signer are the designated epoch
ones, otherwise a receiving open).  With a nonzero previous the sign of the
balance delta selects send / receive / representative change, and an epoch
link signed by the epoch signer upgrades the epoch.  A receive whose pending
claim carries a higher epoch upgrades the account's epoch
(TEST ledger.epoch_blocks_receive_upgrade). -/
def process_state (cfg : ledger_config) (s : Store) (h : Nat) (b : Block)
    (acct prev rep : Nat) (bal : Int) (link : Nat) : process_return :=
  if ¬ (is_epoch_block cfg b link = true ∨ b.signer = acct) then
    ⟨.bad_signature, s⟩
  else
    match s.accounts acct with
    | some info =>
      if prev = 0 then ⟨.fork, s⟩ else
      match s.blocks prev with
      | none => ⟨.gap_previous, s⟩
      | some _ =>
        if info.head ≠ prev then ⟨.fork, s⟩ else
        if is_epoch_block cfg b link then
          if rep ≠ rep_of s info.rep_block then ⟨.representative_mismatch, s⟩
          else if bal ≠ info.balance then ⟨.balance_mismatch, s⟩
          else if info.epoch ≠ 0 then ⟨.block_position, s⟩
          else
            ⟨.progress,
              extend_store s acct h prev b info bal h 1
                (rep_of s info.rep_block) rep s.pending⟩
        else if bal < info.balance then
          ⟨.progress,
            extend_store s acct h prev b info bal h info.epoch
              (rep_of s info.rep_block) rep
              (upd2 s.pending link h (some
                { source := acct, amount := info.balance - bal,
                  epoch := info.epoch }))⟩
        else if link ≠ 0 then
          match s.blocks link with
          | none => ⟨.gap_source, s⟩
          | some _ =>
            match s.pending acct link with
            | none => ⟨.unreceivable, s⟩
            | some p =>
              if p.amount ≠ bal - info.balance then ⟨.balance_mismatch, s⟩
              else
                ⟨.progress,
                  extend_store s acct h prev b info bal h
                    (max info.epoch p.epoch)
                    (rep_of s info.rep_block) rep
                    (upd2 s.pending acct link none)⟩
        else
          if bal ≠ info.balance then ⟨.balance_mismatch, s⟩
          else
            ⟨.progress,
              extend_store s acct h prev b info bal h info.epoch
                (rep_of s info.rep_block) rep s.pending⟩
    | none =>
      if prev ≠ 0 then ⟨.gap_previous, s⟩ else
      if is_epoch_block cfg b link then
        if rep ≠ 0 then ⟨.representative_mismatch, s⟩
        else if bal ≠ 0 then ⟨.balance_mismatch, s⟩
        else ⟨.progress, open_store s acct h b 0 rep 1 s.pending⟩
      else
        match s.blocks link with
        | none => ⟨.gap_source, s⟩
        | some _ =>
          match s.pending acct link with
          | none => ⟨.unreceivable, s⟩
          | some p =>
            if p.amount ≠ bal then ⟨.balance_mismatch, s⟩
            else
              ⟨.progress,
                open_store s acct h b bal rep p.epoch
                  (upd2 s.pending acct link none)⟩

/-- The block-processing state machine, `process(tx, block)` of spec section
4.1.  Global preconditions first (work, duplicate — the signature check is
folded into the per-kind rules because the verifying key depends on the
kind), then the per-kind rules.  `h` is the canonical hash of `b`.  The call
is total (the processor never throws), and every non-`progress` outcome
returns the store unchanged. -/
def process (cfg : ledger_config) (s : Store) (h : Nat) (b : Block) :
    process_return :=
  if b.work_ok = false then ⟨.insufficient_work, s⟩
  else if (s.blocks h).isSome then ⟨.old, s⟩
  else
    match b.kind with
    | .send_block prev dest bal => process_send s h b prev dest bal
    | .receive_block prev src => process_receive s h b prev src
    | .open_block src rep acct => process_open s h b src rep acct
    | .change_block prev rep => process_change s h b prev rep
    | .state_block acct prev rep bal link =>
        process_state cfg s h b acct prev rep bal link

/-- The fixed genesis open block (spec section 6). -/
def genesis_block (g_account : Nat) : Block :=
  ⟨true, g_account, .open_block g_account g_account g_account⟩

/-- Store initialisation with the genesis block (spec section 6): the genesis
account holds the whole supply, delegated to itself, and the checksum buckets
start from the genesis hash (the test suite seeds them with
`checksum_put (0, 0, genesis.hash)`). -/
def ledger_init (g_hash g_account : Nat) (g_amount : Int) : Store :=
  { accounts := upd1 (fun _ => none) g_account (some
      { head := g_hash, rep_block := g_hash, open_block := g_hash,
        balance := g_amount, block_count := 1, epoch := 0 }),
    blocks := upd1 (fun _ => none) g_hash (some
      { blk := genesis_block g_account, account := g_account,
        balance := g_amount, rep_block := g_hash, version := 0 }),
    pending := fun _ _ => none,
    rep := upd1 (fun _ => 0) g_account g_amount,
    frontier := upd1 (fun _ => none) g_hash (some g_account),
    successor := fun _ => none,
    checksum := g_hash,
    count := 1 }

/-- The store mutation that undoes one chain-extending block at hash `h` of
account `A` (spec section 4.2): restore the account record to head `prev`
using the derived record of the previous block, move the weight back, delete
the block, restore frontier and successor, fold the hash out of the
checksum.  `r_new` is the representative currently credited with the
account's balance, `nbal` the account's current balance. -/
def undo_extend (s : Store) (A h prev : Nat) (info : account_info)
    (sbp : stored_block) (r_new : Nat) (nbal : Int)
    (pend : Nat → Nat → Option pending_info) : Store :=
  { accounts := upd1 s.accounts A (some
      { head := prev, rep_block := sbp.rep_block, open_block := info.open_block,
        balance := sbp.balance, block_count := info.block_count - 1,
        epoch := sbp.version }),
    blocks := upd1 s.blocks h none,
    pending := pend,
    rep := repAdd (repSub s.rep r_new nbal) (rep_of s sbp.rep_block) sbp.balance,
    frontier := upd1 (upd1 s.frontier h none) prev (some A),
    successor := upd1 s.successor prev none,
    checksum := Nat.xor s.checksum h,
    count := s.count - 1 }

/-- The store mutation that undoes an account-opening block (spec section
4.2, open case): the account is deleted entirely and the weight credited to
its representative is withdrawn. -/
def undo_open (s : Store) (A h : Nat) (r : Nat) (bal : Int)
    (pend : Nat → Nat → Option pending_info) : Store :=
  { accounts := upd1 s.accounts A none,
    blocks := upd1 s.blocks h none,
    pending := pend,
    rep := repSub s.rep r bal,
    frontier := upd1 s.frontier h none,
    successor := s.successor,
    checksum := Nat.xor s.checksum h,
    count := s.count - 1 }

mutual

/-- Undo the current head block of account `A` (one step of the rollback
engine, spec section 4.2).  A send whose pending entry has already been
consumed first rolls back the head of the receiving chain and retries (the
cascade rule).  The recursion is bounded by explicit fuel; the cascade is
bounded by chain depth, so any fuel larger than the total block count
suffices. -/
def undo_head (cfg : ledger_config) : Nat → Store → Nat → Option Store
  | 0, _, _ => none
  | fuel' + 1, s, A =>
    match s.accounts A with
    | none => none
    | some info =>
      match s.blocks info.head with
      | none => none
      | some sb =>
        match sb.blk.kind with
        | .send_block prev dest _ =>
          (match s.blocks prev with
           | none => none
           | some sbp =>
             match s.pending dest info.head with
             | some _ =>
               some (undo_extend s A info.head prev info sbp
                 (rep_of s info.rep_block) info.balance
                 (upd2 s.pending dest info.head none))
             | none =>
               match s.accounts dest with
               | none => none
               | some dinfo =>
                 match rollback_loop cfg fuel' s dinfo.head with
                 | none => none
                 | some s2 => undo_head cfg fuel' s2 A)
        | .receive_block prev src =>
          (match s.blocks prev, s.blocks src with
           | some sbp, some sbs =>
             some (undo_extend s A info.head prev info sbp
               (rep_of s info.rep_block) info.balance
               (upd2 s.pending A src (some
                 { source := sbs.account, amount := info.balance - sbp.balance,
                   epoch := sbs.version })))
           | _, _ => none)
        | .open_block src _ _ =>
          (match s.blocks src with
           | some sbs =>
             some (undo_open s A info.head (rep_of s info.rep_block)
               info.balance
               (upd2 s.pending A src (some
                 { source := sbs.account, amount := info.balance,
                   epoch := sbs.version })))
           | none => none)
        | .change_block prev _ =>
          (match s.blocks prev with
           | none => none
           | some sbp =>
             some (undo_extend s A info.head prev info sbp
               (rep_of s info.rep_block) info.balance s.pending))
        | .state_block _ prev _ bal link =>
          if prev = 0 then
            if is_epoch_block cfg sb.blk link then
              some (undo_open s A info.head (rep_of s info.rep_block)
                info.balance s.pending)
            else
              match s.blocks link with
              | some sbs =>
                some (undo_open s A info.head (rep_of s info.rep_block)
                  info.balance
                  (upd2 s.pending A link (some
                    { source := sbs.account, amount := info.balance,
                      epoch := sbs.version })))
              | none => none
          else
            match s.blocks prev with
            | none => none
            | some sbp =>
              if bal < sbp.balance then
                match s.pending link info.head with
                | some _ =>
                  some (undo_extend s A info.head prev info sbp
                    (rep_of s info.rep_block) info.balance
                    (upd2 s.pending link info.head none))
                | none =>
                  match s.accounts link with
                  | none => none
                  | some dinfo =>
                    match rollback_loop cfg fuel' s dinfo.head with
                    | none => none
                    | some s2 => undo_head cfg fuel' s2 A
              else if link ≠ 0 ∧ ¬ (is_epoch_block cfg sb.blk link = true) then
                match s.blocks link with
                | some sbs =>
                  some (undo_extend s A info.head prev info sbp
                    (rep_of s info.rep_block) info.balance
                    (upd2 s.pending A link (some
                      { source := sbs.account,
                        amount := info.balance - sbp.balance,
                        epoch := sbs.version })))
                | none => none
              else
                some (undo_extend s A info.head prev info sbp
                  (rep_of s info.rep_block) info.balance s.pending)

/-- The outer rollback loop (spec section 4.2 contract): while the target
hash is still stored, undo the current head of its owning account.  Stops
with the store in which the target hash's predecessor is the account head
(or the account is gone, when the target was its open block). -/
def rollback_loop (cfg : ledger_config) : Nat → Store → Nat → Option Store
  | 0, _, _ => none
  | fuel' + 1, s, h =>
    match s.blocks h with
    | none => some s
    | some sb =>
      match undo_head cfg fuel' s sb.account with
      | none => none
      | some s2 => rollback_loop cfg fuel' s2 h

end

/-- `rollback(tx, hash)`: undo every block on the owning account's chain
from the head back through and including `hash` (spec section 4.2).  The
fuel `count + 2` dominates the chain depth, which bounds loop and cascade. -/
def rollback (cfg : ledger_config) (s : Store) (h : Nat) : Option Store :=
  rollback_loop cfg (s.count + 2) s h

/-- The weight index with its bootstrap override (spec section 4.3): the
optional bootstrap table and threshold, plus the latch that permanently
disables the override once the threshold has been observed
(`check_bootstrap_weights` of the C++ ledger). -/
structure weight_ctx : Type where
  bootstrap_weight_max_blocks : Nat
  bootstrap_weights : Nat → Option Int
  check_bootstrap_weights : Bool

/-- `weight(tx, account)` (spec section 4.3): while the latch is set and the
total block count is below the threshold, a bootstrap override is consulted;
the first call that observes the threshold reached clears the latch, after
which the tracked representation value is always returned. -/
def weight (w : weight_ctx) (s : Store) (a : Nat) : Int × weight_ctx :=
  if w.check_bootstrap_weights then
    if s.count < w.bootstrap_weight_max_blocks then
      match w.bootstrap_weights a with
      | some v => (v, w)
      | none => (s.rep a, w)
    else (s.rep a, { w with check_bootstrap_weights := false })
  else (s.rep a, w)

/-- A voter's entry in an election's `last_votes` map (spec sections 3 and
4.5): the block voted for, the vote sequence number and the time of the
vote (a monotone clock reading, in seconds). -/
structure vote_info : Type where
  hash : Nat
  sequence : Nat
  time : Nat
deriving DecidableEq, Repr

/-- Per-root election tally state (spec section 4.5): the latest accepted
vote of each voter. -/
structure election : Type where
  last_votes : Nat → Option vote_info

/-- The per-election cooldown window in seconds (spec section 4.5). -/
def vote_cooldown : Nat := 15

/-- Record a vote in an election (spec section 4.5): a first vote from a
voter is always recorded; a later vote replaces the recorded one only when
its sequence is strictly higher and either it confirms the same block or the
cooldown window since the recorded vote has elapsed.  Lower-sequence votes
and block changes within the cooldown leave the map unchanged. -/
def election_vote (e : election) (voter : Nat) (seq : Nat) (h : Nat)
    (now : Nat) : election :=
  match e.last_votes voter with
  | none =>
    { last_votes := upd1 e.last_votes voter (some
        { hash := h, sequence := seq, time := now }) }
  | some last =>
    if last.sequence < seq ∧ (h = last.hash ∨ last.time + vote_cooldown ≤ now)
    then
      { last_votes := upd1 e.last_votes voter (some
          { hash := h, sequence := seq, time := now }) }
    else e

/-! ## Concrete fixtures

A small concrete ledger used by the witnesses: genesis account 10 with hash 1
and supply 1000, epoch link 99, epoch signer key 12.  Destination accounts
are 11 and 13, block hashes are small naturals. -/

/-- Epoch configuration used by the concrete fixtures. -/
def test_cfg : ledger_config := ⟨99, 12⟩

/-- Genesis-initialised store used by the concrete fixtures. -/
def genesis_store : Store := ledger_init 1 10 1000

/-- A legacy send of 950 from the genesis account to account 11 (new balance
50), processed as block hash 2 on the fixture store. -/
def fix_send : Block := ⟨true, 10, .send_block 1 11 50⟩

/-- Fixture store after `fix_send`. -/
def store_after_send : Store := (process test_cfg genesis_store 2 fix_send).store

/-- A legacy open of account 11 receiving `fix_send`, with representative
11, processed as block hash 3. -/
def fix_open : Block := ⟨true, 11, .open_block 2 11 11⟩

/-- Fixture store after `fix_send` then `fix_open`. -/
def store_after_open : Store := (process test_cfg store_after_send 3 fix_open).store

/-- A state send of 100 from the genesis account to account 11 (new balance
900, link names the destination), processed as block hash 7. -/
def fix_state_send : Block := ⟨true, 10, .state_block 10 1 10 900 11⟩

/-- Fixture store after `fix_state_send`. -/
def store_after_state_send : Store :=
  (process test_cfg genesis_store 7 fix_state_send).store

/-! ## Generic facts about the processor -/

/-- A legacy send either progresses or returns the store unchanged. -/
theorem process_send_cases (s : Store) (h : Nat) (b : Block) (prev dest : Nat)
    (bal : Int) :
    (process_send s h b prev dest bal).code = process_result.progress ∨
      (process_send s h b prev dest bal).store = s := by
  unfold process_send
  repeat' split
  all_goals simp

/-- A legacy receive either progresses or returns the store unchanged. -/
theorem process_receive_cases (s : Store) (h : Nat) (b : Block)
    (prev src : Nat) :
    (process_receive s h b prev src).code = process_result.progress ∨
      (process_receive s h b prev src).store = s := by
  unfold process_receive
  repeat' split
  all_goals simp

/-- A legacy open either progresses or returns the store unchanged. -/
theorem process_open_cases (s : Store) (h : Nat) (b : Block)
    (src rep acct : Nat) :
    (process_open s h b src rep acct).code = process_result.progress ∨
      (process_open s h b src rep acct).store = s := by
  unfold process_open
  repeat' split
  all_goals simp

/-- A legacy change either progresses or returns the store unchanged. -/
theorem process_change_cases (s : Store) (h : Nat) (b : Block)
    (prev rep : Nat) :
    (process_change s h b prev rep).code = process_result.progress ∨
      (process_change s h b prev rep).store = s := by
  unfold process_change
  repeat' split
  all_goals simp

/-- A state block either progresses or returns the store unchanged. -/
theorem process_state_cases (cfg : ledger_config) (s : Store) (h : Nat)
    (b : Block) (acct prev rep : Nat) (bal : Int) (link : Nat) :
    (process_state cfg s h b acct prev rep bal link).code =
        process_result.progress ∨
      (process_state cfg s h b acct prev rep bal link).store = s := by
  unfold process_state
  repeat' split
  all_goals simp

/-- Every `process` call either reports `progress` or hands back the store it
was given: each rejection branch of the per-kind rules returns the input
store unchanged. -/
theorem process_cases (cfg : ledger_config) (s : Store) (h : Nat) (b : Block) :
    (process cfg s h b).code = process_result.progress ∨
      (process cfg s h b).store = s := by
  unfold process
  split
  · simp
  · split
    · simp
    · split
      · exact process_send_cases _ _ _ _ _ _
      · exact process_receive_cases _ _ _ _ _
      · exact process_open_cases _ _ _ _ _ _
      · exact process_change_cases _ _ _ _ _
      · exact process_state_cases _ _ _ _ _ _ _ _ _

/-- C7.  For every block and every store state, if `process` returns any
code other than `progress`, the call leaves every store table (accounts,
blocks, pending, representation, frontier, successor, checksum) exactly as
it was before the call; the modelled processor is moreover a total function,
so it never throws. -/
theorem process_nonprogress_preserves_store (cfg : ledger_config) (s : Store)
    (h : Nat) (b : Block)
    (hne : (process cfg s h b).code ≠ process_result.progress) :
    (process cfg s h b).store = s :=
  (process_cases cfg s h b).resolve_left hne

/-- Witness for C7: a send whose previous block is absent is rejected with
`gap_previous` and the fixture store is returned untouched. -/
theorem process_nonprogress_preserves_store_witness :
    (process test_cfg genesis_store 2 ⟨true, 10, .send_block 5 11 1⟩).code ≠
        process_result.progress ∧
      (process test_cfg genesis_store 2 ⟨true, 10, .send_block 5 11 1⟩).store =
        genesis_store :=
  ⟨by decide, process_nonprogress_preserves_store _ _ _ _ (by decide)⟩

/-- C4 counterexample.  A legacy send whose new balance equals the previous
balance (a zero spend) is accepted with `progress`, not rejected with
`negative_spend`: the claim fails on the code (mirrors
TEST ledger.epoch_blocks_fork, where `send1` keeps the full genesis
balance). -/
theorem send_zero_spend_progress :
    (genesis_store.accounts 10).map account_info.head = some 1 ∧
      (genesis_store.accounts 10).map account_info.balance = some 1000 ∧
      (process test_cfg genesis_store 2 ⟨true, 10, .send_block 1 11 1000⟩).code =
        process_result.progress ∧
      (process test_cfg genesis_store 2 ⟨true, 10, .send_block 1 11 1000⟩).code ≠
        process_result.negative_spend := by
  decide

/-- C4 (amended).  For a legacy send whose previous is the current head of
its account, `process` returns `negative_spend` exactly when the block's
balance exceeds the previous balance; whenever the new balance is at most the
previous balance — including a zero spend with the two equal — the block is
accepted with `progress`. -/
theorem send_negative_spend_iff (cfg : ledger_config) (s : Store) (h : Nat)
    (b : Block) (prev dest A : Nat) (bal : Int) (info : account_info)
    (hw : b.work_ok = true) (hold : s.blocks h = none)
    (hk : b.kind = .send_block prev dest bal)
    (hpb : (s.blocks prev).isSome = true) (hfr : s.frontier prev = some A)
    (hsig : b.signer = A) (hacc : s.accounts A = some info)
    (hhead : info.head = prev) (hleg : legacy_blocked s info = false) :
    ((process cfg s h b).code = process_result.negative_spend ↔
        info.balance < bal) ∧
      (bal ≤ info.balance →
        (process cfg s h b).code = process_result.progress) := by
  obtain ⟨sbp, hsbp⟩ := Option.isSome_iff_exists.mp hpb
  simp only [process, process_send, hw, hold, hk, hsbp, hfr, hsig, hacc, hhead,
    hleg]
  by_cases hlt : info.balance < bal <;> simp [hlt]

/-- Witness for C4 (amended): the fixture zero-spend send is accepted. -/
theorem send_negative_spend_iff_witness :
    ¬ ((1000 : Int) < 1000) ∧
      (process test_cfg genesis_store 2 ⟨true, 10, .send_block 1 11 1000⟩).code =
        process_result.progress := by
  refine ⟨by decide, ?_⟩
  exact (send_negative_spend_iff test_cfg genesis_store 2
    ⟨true, 10, .send_block 1 11 1000⟩ 1 11 10 1000
    { head := 1, rep_block := 1, open_block := 1, balance := 1000,
      block_count := 1, epoch := 0 }
    rfl (by decide) rfl (by decide) (by decide) rfl (by decide) rfl
    (by decide)).2 (by decide)

/-- C5.  A legacy block (send, receive or change) whose previous is the
current head of its account is rejected with `block_position` whenever the
head is a state block or the account's epoch is positive (the definition of
`legacy_blocked`); and an epoch block applied to an account that is already
at epoch 1 is also rejected with `block_position`. -/
theorem legacy_after_state_block_position :
    (∀ (cfg : ledger_config) (s : Store) (h : Nat) (b : Block) (prev A : Nat)
        (info : account_info),
      b.work_ok = true → s.blocks h = none →
      ((∃ d bal, b.kind = .send_block prev d bal) ∨
        (∃ src, b.kind = .receive_block prev src) ∨
        (∃ r, b.kind = .change_block prev r)) →
      (s.blocks prev).isSome = true → s.frontier prev = some A →
      b.signer = A → s.accounts A = some info → info.head = prev →
      legacy_blocked s info = true →
      (process cfg s h b).code = process_result.block_position) ∧
    (∀ (cfg : ledger_config) (s : Store) (h : Nat) (b : Block)
        (acct prev rep : Nat) (bal : Int) (link : Nat) (info : account_info),
      b.work_ok = true → s.blocks h = none →
      b.kind = .state_block acct prev rep bal link →
      is_epoch_block cfg b link = true →
      s.accounts acct = some info → prev ≠ 0 →
      (s.blocks prev).isSome = true → info.head = prev →
      rep = rep_of s info.rep_block → bal = info.balance →
      info.epoch = 1 →
      (process cfg s h b).code = process_result.block_position) := by
  constructor
  · intro cfg s h b prev A info hw hold hkinds hpb hfr hsig hacc hhead hleg
    obtain ⟨sbp, hsbp⟩ := Option.isSome_iff_exists.mp hpb
    rcases hkinds with ⟨d, bal, hk⟩ | ⟨src, hk⟩ | ⟨r, hk⟩ <;>
      simp [process, process_send, process_receive, process_change, hw, hold,
        hk, hsbp, hfr, hsig, hacc, hhead, hleg]
  · intro cfg s h b acct prev rep bal link info hw hold hk hepoch hacc hp0 hpb
      hhead hrep hbal hep
    obtain ⟨sbp, hsbp⟩ := Option.isSome_iff_exists.mp hpb
    simp [process, process_state, hw, hold, hk, hepoch, hacc, hp0, hsbp,
      hhead, hrep, hbal, hep]

/-- Witness for C5: in the fixture, after the epoch block (hash 4) upgrades
the genesis account, a legacy change on top of it is rejected with
`block_position` (first part), and a second epoch block is rejected with
`block_position` (second part). -/
theorem legacy_after_state_block_position_witness :
    (process test_cfg (process test_cfg genesis_store 4
          ⟨true, 12, .state_block 10 1 10 1000 99⟩).store 5
        ⟨true, 10, .change_block 4 13⟩).code = process_result.block_position ∧
      (process test_cfg (process test_cfg genesis_store 4
          ⟨true, 12, .state_block 10 1 10 1000 99⟩).store 5
        ⟨true, 12, .state_block 10 4 10 1000 99⟩).code =
          process_result.block_position := by
  constructor
  · exact legacy_after_state_block_position.1 test_cfg
      (process test_cfg genesis_store 4
        ⟨true, 12, .state_block 10 1 10 1000 99⟩).store 5
      ⟨true, 10, .change_block 4 13⟩ 4 10
      { head := 4, rep_block := 4, open_block := 1, balance := 1000,
        block_count := 2, epoch := 1 }
      rfl (by decide) (Or.inr (Or.inr ⟨13, rfl⟩)) (by decide) (by decide) rfl
      (by decide) (by decide) (by decide)
  · exact legacy_after_state_block_position.2 test_cfg
      (process test_cfg genesis_store 4
        ⟨true, 12, .state_block 10 1 10 1000 99⟩).store 5
      ⟨true, 12, .state_block 10 4 10 1000 99⟩ 10 4 10 1000 99
      { head := 4, rep_block := 4, open_block := 1, balance := 1000,
        block_count := 2, epoch := 1 }
      rfl (by decide) rfl (by decide) (by decide) (by decide) (by decide)
      (by decide) (by decide) (by decide) (by decide)

/-- C6 counterexample.  A state block with `link = 0` whose balance is
larger than the previous balance (a receive with no source named) is
rejected with `balance_mismatch`, not with `gap_source` as the claim states;
no pending entry keyed by (account, 0) exists (mirrors
TEST ledger.state_no_link_amount_fail). -/
theorem state_receive_link_zero_balance_mismatch :
    (store_after_state_send.pending 10 0 = none) ∧
      (store_after_state_send.accounts 10).map account_info.balance =
        some 900 ∧
      (process test_cfg store_after_state_send 9
          ⟨true, 10, .state_block 10 7 13 1000 0⟩).code =
        process_result.balance_mismatch ∧
      (process test_cfg store_after_state_send 9
          ⟨true, 10, .state_block 10 7 13 1000 0⟩).code ≠
        process_result.gap_source := by
  decide

/-- C6 (amended).  For a state block on an opened account whose previous is
the head and whose balance delta is non-negative (a receive shape, not an
epoch block): with a nonzero link, a missing linked block gives
`gap_source`, a present linked block without a pending entry keyed by
(account, link) gives `unreceivable`, and a pending entry whose amount
differs from the delta gives `balance_mismatch`; with `link = 0`, a strictly
positive delta gives `balance_mismatch` (there is no source to receive
from). -/
theorem state_receive_result_codes (cfg : ledger_config) (s : Store)
    (h : Nat) (b : Block) (acct prev rep : Nat) (bal : Int) (link : Nat)
    (info : account_info)
    (hw : b.work_ok = true) (hold : s.blocks h = none)
    (hk : b.kind = .state_block acct prev rep bal link)
    (hne : is_epoch_block cfg b link = false) (hsig : b.signer = acct)
    (hacc : s.accounts acct = some info) (hp0 : prev ≠ 0)
    (hpb : (s.blocks prev).isSome = true) (hhead : info.head = prev)
    (hrecv : info.balance ≤ bal) :
    (link ≠ 0 → s.blocks link = none →
      (process cfg s h b).code = process_result.gap_source) ∧
    (link ≠ 0 → (s.blocks link).isSome = true → s.pending acct link = none →
      (process cfg s h b).code = process_result.unreceivable) ∧
    (∀ p, link ≠ 0 → (s.blocks link).isSome = true →
      s.pending acct link = some p → p.amount ≠ bal - info.balance →
      (process cfg s h b).code = process_result.balance_mismatch) ∧
    (link = 0 → info.balance < bal →
      (process cfg s h b).code = process_result.balance_mismatch) := by
  obtain ⟨sbp, hsbp⟩ := Option.isSome_iff_exists.mp hpb
  have hnotlt : ¬ bal < info.balance := by omega
  refine ⟨?_, ?_, ?_, ?_⟩
  · intro hl0 hlink
    simp [process, process_state, hw, hold, hk, hne, hsig, hacc, hp0, hsbp,
      hhead, hnotlt, hl0, hlink]
  · intro hl0 hlb hpend
    obtain ⟨sbl, hsbl⟩ := Option.isSome_iff_exists.mp hlb
    simp [process, process_state, hw, hold, hk, hne, hsig, hacc, hp0, hsbp,
      hhead, hnotlt, hl0, hsbl, hpend]
  · intro p hl0 hlb hpend hamt
    obtain ⟨sbl, hsbl⟩ := Option.isSome_iff_exists.mp hlb
    simp [process, process_state, hw, hold, hk, hne, hsig, hacc, hp0, hsbp,
      hhead, hnotlt, hl0, hsbl, hpend, hamt]
  · intro hl0 hlt
    have hbne : bal ≠ info.balance := by omega
    rw [hl0] at hne
    simp [process, process_state, hw, hold, hk, hne, hsig, hacc, hp0, hsbp,
      hhead, hnotlt, hl0, hbne]

/-- Witness for C6 (amended): on the fixture after the state send, a state
receive naming a nonexistent linked block is rejected with `gap_source`. -/
theorem state_receive_result_codes_witness :
    (process test_cfg store_after_state_send 9
        ⟨true, 10, .state_block 10 7 10 1000 55⟩).code =
      process_result.gap_source :=
  (state_receive_result_codes test_cfg store_after_state_send 9
      ⟨true, 10, .state_block 10 7 10 1000 55⟩ 10 7 10 1000 55
      { head := 7, rep_block := 7, open_block := 1, balance := 900,
        block_count := 2, epoch := 0 }
      rfl (by decide) rfl (by decide) rfl (by decide) (by decide) (by decide)
      (by decide) (by decide)).1 (by decide) (by decide)

/-- C8.  The weight index with bootstrap override: while the override latch
is set and the store's total block count is strictly below
`bootstrap_weight_max_blocks`, `weight` returns the override for accounts
that have one and the tracked value otherwise; any call observing the count
at or above the threshold returns the tracked value and clears the latch,
and with the latch cleared every call returns the tracked value and leaves
the context unchanged (the override is never consulted again). -/
theorem weight_bootstrap_override (w : weight_ctx) (s : Store) (a : Nat) :
    (w.check_bootstrap_weights = true →
      s.count < w.bootstrap_weight_max_blocks →
      (∀ v, w.bootstrap_weights a = some v → (weight w s a).1 = v) ∧
        (w.bootstrap_weights a = none → (weight w s a).1 = s.rep a)) ∧
    (w.check_bootstrap_weights = true →
      w.bootstrap_weight_max_blocks ≤ s.count →
      (weight w s a).1 = s.rep a ∧
        (weight w s a).2.check_bootstrap_weights = false) ∧
    (w.check_bootstrap_weights = false →
      (weight w s a).1 = s.rep a ∧ (weight w s a).2 = w) := by
  refine ⟨?_, ?_, ?_⟩
  · intro hch hlt
    constructor
    · intro v hv
      simp [weight, hch, hlt, hv]
    · intro hv
      simp [weight, hch, hlt, hv]
  · intro hch hge
    have hnlt : ¬ s.count < w.bootstrap_weight_max_blocks := by omega
    simp [weight, hch, hnlt]
  · intro hch
    simp [weight, hch]

/-- Witness for C8: latch set, threshold 3.  With two blocks stored the
override 555 for account 11 is returned; with three blocks stored the
tracked value is returned and the latch is cleared. -/
theorem weight_bootstrap_override_witness :
    (weight ⟨3, upd1 (fun _ => none) 11 (some 555), true⟩
        store_after_send 11).1 = 555 ∧
      (weight ⟨3, upd1 (fun _ => none) 11 (some 555), true⟩
          store_after_open 11).1 = store_after_open.rep 11 ∧
      (weight ⟨3, upd1 (fun _ => none) 11 (some 555), true⟩
          store_after_open 11).2.check_bootstrap_weights = false := by
  refine ⟨?_, ?_, ?_⟩
  · exact (weight_bootstrap_override
      ⟨3, upd1 (fun _ => none) 11 (some 555), true⟩ store_after_send 11).1
      rfl (by decide) |>.1 555 (by decide)
  · exact ((weight_bootstrap_override
      ⟨3, upd1 (fun _ => none) 11 (some 555), true⟩ store_after_open 11).2.1
      rfl (by decide)).1
  · exact ((weight_bootstrap_override
      ⟨3, upd1 (fun _ => none) 11 (some 555), true⟩ store_after_open 11).2.1
      rfl (by decide)).2

/-- C9.  Within one election, for a voter with a recorded entry: the
recorded sequence never decreases across a `vote` call; a vote with a
strictly higher sequence cast at or after the cooldown deadline replaces the
voter's recorded entry with the new hash, sequence and time; a vote whose
sequence does not exceed the recorded one leaves the election unchanged; and
a vote for a different block cast within the cooldown window leaves the
election unchanged. -/
theorem election_vote_sequence_rules (e : election) (voter seq h now : Nat)
    (last : vote_info) (hl : e.last_votes voter = some last) :
    (∀ li, (election_vote e voter seq h now).last_votes voter = some li →
      last.sequence ≤ li.sequence) ∧
    (last.sequence < seq → last.time + vote_cooldown ≤ now →
      (election_vote e voter seq h now).last_votes voter =
        some { hash := h, sequence := seq, time := now }) ∧
    (seq ≤ last.sequence → election_vote e voter seq h now = e) ∧
    (h ≠ last.hash → now < last.time + vote_cooldown →
      election_vote e voter seq h now = e) := by
  simp only [election_vote, hl]
  by_cases hc : last.sequence < seq ∧
      (h = last.hash ∨ last.time + vote_cooldown ≤ now)
  · rw [if_pos hc]
    refine ⟨?_, ?_, ?_, ?_⟩
    · intro li hli
      have heq : some { hash := h, sequence := seq, time := now } = some li := by
        simpa [upd1] using hli
      have heq2 := Option.some.inj heq
      subst heq2
      exact Nat.le_of_lt hc.1
    · intro _ _
      simp [upd1]
    · intro hle
      exact absurd hc.1 (by omega)
    · intro hne hcool
      rcases hc.2 with heq | hle
      · exact absurd heq hne
      · exact absurd hle (by omega)
  · rw [if_neg hc]
    refine ⟨?_, ?_, ?_, ?_⟩
    · intro li hli
      rw [hl] at hli
      cases hli
      exact Nat.le_refl _
    · intro h1 h2
      exact absurd ⟨h1, Or.inr h2⟩ hc
    · intro _
      rfl
    · intro _ _
      rfl

/-- Witness for C9: voter 20 has recorded (hash 5, sequence 1, time 100); a
vote (hash 6, sequence 2) at time 120 (past the 15-second cooldown)
replaces the entry. -/
theorem election_vote_sequence_rules_witness :
    (election_vote ⟨upd1 (fun _ => none) 20 (some ⟨5, 1, 100⟩)⟩
        20 2 6 120).last_votes 20 = some ⟨6, 2, 120⟩ :=
  (election_vote_sequence_rules ⟨upd1 (fun _ => none) 20 (some ⟨5, 1, 100⟩)⟩
      20 2 6 120 ⟨5, 1, 100⟩ (by decide)).2.1 (by decide) (by decide)

/-- C10.  Rolling back a legacy receive block that is the head of its
account rewinds the account's head, balance and block count, but leaves the
`rep_block` field unchanged: the restored record carries the representative
block of the predecessor, which (the receive having set no representative)
is still the most recent representative-setting block, e.g. the open
block. -/
theorem rollback_receive_keeps_rep_block (cfg : ledger_config) (s : Store)
    (A prev src : Nat) (info : account_info) (sb sbp sbs : stored_block)
    (hacc : s.accounts A = some info)
    (hsb : s.blocks info.head = some sb) (hsbA : sb.account = A)
    (hk : sb.blk.kind = .receive_block prev src)
    (hsbp : s.blocks prev = some sbp) (hsbs : s.blocks src = some sbs)
    (hrb : sbp.rep_block = info.rep_block) :
    ∃ s2, rollback cfg s info.head = some s2 ∧
      s2.accounts A = some
        { head := prev, rep_block := info.rep_block,
          open_block := info.open_block, balance := sbp.balance,
          block_count := info.block_count - 1, epoch := sbp.version } ∧
      s2.blocks info.head = none := by
  have h2 : s.count + 2 = (s.count + 1) + 1 := rfl
  have hroll : rollback cfg s info.head = some (undo_extend s A info.head prev
      info sbp (rep_of s info.rep_block) info.balance
      (upd2 s.pending A src (some
        { source := sbs.account, amount := info.balance - sbp.balance,
          epoch := sbs.version }))) := by
    rw [rollback, h2]
    simp only [rollback_loop, hsb, hsbA]
    simp only [undo_head, hacc, hsb, hk, hsbp, hsbs]
    simp [rollback_loop, undo_extend, upd1]
  refine ⟨_, hroll, ?_, ?_⟩
  · simp [undo_extend, upd1, hrb]
  · simp [undo_extend, upd1]

/-- A second legacy send of 25 from genesis to account 11 (new balance 25),
processed as block hash 4 on top of the send/open fixture. -/
def fix_send2 : Block := ⟨true, 10, .send_block 2 11 25⟩

/-- A legacy receive by account 11 of `fix_send2` (previous is its open
block 3, source is block 4), processed as block hash 5. -/
def fix_receive : Block := ⟨true, 11, .receive_block 3 4⟩

/-- Fixture store after send, open, second send and receive. -/
def store_after_receive : Store :=
  (process test_cfg (process test_cfg store_after_open 4 fix_send2).store
    5 fix_receive).store

/-- Witness for C10: rolling back the fixture receive (hash 5) restores
account 11 to head 3, balance 950 and block count 1 while `rep_block`
remains 3, the open block that set the representative. -/
theorem rollback_receive_keeps_rep_block_witness :
    ∃ s2, rollback test_cfg store_after_receive 5 = some s2 ∧
      s2.accounts 11 = some
        { head := 3, rep_block := 3, open_block := 3, balance := 950,
          block_count := 1, epoch := 0 } ∧
      s2.blocks 5 = none :=
  rollback_receive_keeps_rep_block test_cfg store_after_receive 11 3 4
    { head := 5, rep_block := 3, open_block := 3, balance := 975,
      block_count := 2, epoch := 0 }
    { blk := fix_receive, account := 11, balance := 975, rep_block := 3,
      version := 0 }
    { blk := fix_open, account := 11, balance := 950, rep_block := 3,
      version := 0 }
    { blk := fix_send2, account := 10, balance := 25, rep_block := 1,
      version := 0 }
    (by decide) (by decide) (by decide) (by decide) (by decide) (by decide)
    (by decide)

/-- C2.  Rolling back a send block `S` (the head of account `A`, hash `hS`,
legacy or state) whose pending entry has already been consumed by the block
`O` at the head of account `B` (hash `hO`) first undoes `O` and then undoes
`S`, restoring `A`'s balance to its pre-send value and leaving no pending
entry for `S`; afterwards neither `S` nor `O` exists in the store.  `O` may
be any of the consuming kinds: a legacy open, state open, legacy receive or
state receive.  When `O` was `B`'s open block the account `B` is removed
entirely; when `O` was a receive, `B` survives with its chain rewound to
`O`'s predecessor. -/
theorem rollback_send_cascades (cfg : ledger_config) (s : Store)
    (A B hS hO prevA prevB : Nat) (infoA infoB : account_info)
    (sbS sbO sbpA sbpB : stored_block) (balS balO : Int) (repS repO : Nat)
    (hcnt : 2 ≤ s.count)
    (haccA : s.accounts A = some infoA) (hheadA : infoA.head = hS)
    (hsbS : s.blocks hS = some sbS) (hSA : sbS.account = A)
    (hkS : sbS.blk.kind = .send_block prevA B balS ∨
      (sbS.blk.kind = .state_block A prevA repS balS B ∧
        balS < sbpA.balance ∧ prevA ≠ 0))
    (hsbpA : s.blocks prevA = some sbpA)
    (hpend : s.pending B hS = none)
    (haccB : s.accounts B = some infoB) (hheadB : infoB.head = hO)
    (hsbO : s.blocks hO = some sbO) (hOB : sbO.account = B)
    (hkO : sbO.blk.kind = .open_block hS repO B ∨
      (sbO.blk.kind = .state_block B 0 repO balO hS ∧
        is_epoch_block cfg sbO.blk hS = false) ∨
      ((sbO.blk.kind = .receive_block prevB hS ∨
         (sbO.blk.kind = .state_block B prevB repO balO hS ∧
           is_epoch_block cfg sbO.blk hS = false ∧
           ¬ balO < sbpB.balance ∧ hS ≠ 0)) ∧
        prevB ≠ 0 ∧ s.blocks prevB = some sbpB))
    (hAB : A ≠ B) (hShO : hS ≠ hO) (hpAhO : prevA ≠ hO) :
    ∃ s2, rollback cfg s hS = some s2 ∧
      s2.blocks hS = none ∧ s2.blocks hO = none ∧
      s2.pending B hS = none ∧
      s2.accounts A = some
        { head := prevA, rep_block := sbpA.rep_block,
          open_block := infoA.open_block, balance := sbpA.balance,
          block_count := infoA.block_count - 1, epoch := sbpA.version } ∧
      ((sbO.blk.kind = .open_block hS repO B ∨
          sbO.blk.kind = .state_block B 0 repO balO hS) →
        s2.accounts B = none) ∧
      ((sbO.blk.kind = .receive_block prevB hS ∨
          (sbO.blk.kind = .state_block B prevB repO balO hS ∧
            prevB ≠ 0)) →
        s2.accounts B = some
          { head := prevB, rep_block := sbpB.rep_block,
            open_block := infoB.open_block, balance := sbpB.balance,
            block_count := infoB.block_count - 1,
            epoch := sbpB.version }) := by
  obtain ⟨k, hk⟩ : ∃ k, s.count = k + 2 := ⟨s.count - 2, by omega⟩
  have e1 : s.count + 2 = k + 1 + 1 + 1 + 1 := by omega
  rw [rollback, e1]
  rcases hkS with hkS | ⟨hkS, hsend, hpA0⟩ <;>
    rcases hkO with hkO | ⟨hkO, hOep⟩ | ⟨hkOr, hp0, hsbpB⟩
  · simp only [rollback_loop, hsbS, hSA]
    simp only [undo_head, haccA, hheadA, hsbS, hkS, hsbpA, hpend, haccB,
      hheadB]
    simp only [rollback_loop, hsbO, hOB]
    simp only [undo_head, haccB, hheadB, hsbO, hkO, hsbS]
    simp [undo_open, undo_extend, upd1, upd2, hAB, hShO, hpAhO, haccA,
      hheadA, hkS, hsbS, hsbpA, rollback_loop, undo_head, hkO]
    omega
  · simp only [rollback_loop, hsbS, hSA]
    simp only [undo_head, haccA, hheadA, hsbS, hkS, hsbpA, hpend, haccB,
      hheadB]
    simp only [rollback_loop, hsbO, hOB]
    simp only [undo_head, haccB, hheadB, hsbO, hkO, hOep, hsbS]
    simp [undo_open, undo_extend, upd1, upd2, hAB, hShO, hpAhO, haccA,
      hheadA, hkS, hsbS, hsbpA, rollback_loop, undo_head, hkO]
    omega
  · rcases hkOr with hkO | ⟨hkO, hOep, hnlt, hS0⟩
    · simp only [rollback_loop, hsbS, hSA]
      simp only [undo_head, haccA, hheadA, hsbS, hkS, hsbpA, hpend, haccB,
        hheadB]
      simp only [rollback_loop, hsbO, hOB]
      simp only [undo_head, haccB, hheadB, hsbO, hkO, hsbpB, hsbS]
      simp [undo_open, undo_extend, upd1, upd2, hAB, hShO, hpAhO, haccA,
        hheadA, hkS, hsbS, hsbpA, hSA, rollback_loop, undo_head, hkO]
      omega
    · simp only [rollback_loop, hsbS, hSA]
      simp only [undo_head, haccA, hheadA, hsbS, hkS, hsbpA, hpend, haccB,
        hheadB]
      simp only [rollback_loop, hsbO, hOB]
      simp [undo_head, undo_open, undo_extend, upd1, upd2, haccB, hheadB,
        hsbO, hkO, hsbpB, hsbS, hSA, hp0, hnlt, hOep, hS0, hAB, hShO,
        hpAhO, haccA, hheadA, hkS, hsbpA, rollback_loop]
      omega
  · simp only [rollback_loop, hsbS, hSA]
    simp only [undo_head, haccA, hheadA, hsbS, hkS, hsbpA, hpend, haccB,
      hheadB, hsend, hpA0]
    simp only [rollback_loop, hsbO, hOB]
    simp only [undo_head, haccB, hheadB, hsbO, hkO, hsbS]
    simp [undo_open, undo_extend, upd1, upd2, hAB, hShO, hpAhO, haccA,
      hheadA, hkS, hsbS, hsbpA, hsend, hpA0, rollback_loop, undo_head,
      hkO]
    omega
  · simp only [rollback_loop, hsbS, hSA]
    simp only [undo_head, haccA, hheadA, hsbS, hkS, hsbpA, hpend, haccB,
      hheadB, hsend, hpA0]
    simp only [rollback_loop, hsbO, hOB]
    simp only [undo_head, haccB, hheadB, hsbO, hkO, hOep, hsbS]
    simp [undo_open, undo_extend, upd1, upd2, hAB, hShO, hpAhO, haccA,
      hheadA, hkS, hsbS, hsbpA, hsend, hpA0, rollback_loop, undo_head,
      hkO]
    omega
  · rcases hkOr with hkO | ⟨hkO, hOep, hnlt, hS0⟩
    · simp only [rollback_loop, hsbS, hSA]
      simp only [undo_head, haccA, hheadA, hsbS, hkS, hsbpA, hpend, haccB,
        hheadB, hsend, hpA0]
      simp only [rollback_loop, hsbO, hOB]
      simp only [undo_head, haccB, hheadB, hsbO, hkO, hsbpB, hsbS]
      simp [undo_open, undo_extend, upd1, upd2, hAB, hShO, hpAhO, haccA,
        hheadA, hkS, hsbS, hsbpA, hSA, hsend, hpA0, rollback_loop,
        undo_head, hkO]
      omega
    · simp only [rollback_loop, hsbS, hSA]
      simp only [undo_head, haccA, hheadA, hsbS, hkS, hsbpA, hpend, haccB,
        hheadB, hsend, hpA0]
      simp only [rollback_loop, hsbO, hOB]
      simp [undo_head, undo_open, undo_extend, upd1, upd2, haccB, hheadB,
        hsbO, hkO, hsbpB, hsbS, hSA, hp0, hnlt, hOep, hS0, hAB, hShO,
        hpAhO, haccA, hheadA, hkS, hsbpA, hsend, hpA0, rollback_loop]
      omega

/-- Witness for C2 exercising the receive branch of the cascade: on the
fixture where the second send (hash 4, genesis to account 11) has been
received by the legacy receive (hash 5) on account 11, rolling back the
send first undoes the receive — rewinding account 11 to its open block —
and then the send itself, restoring the genesis balance and leaving no
pending entry; neither block remains. -/
theorem rollback_send_cascades_witness :
    ∃ s2, rollback test_cfg store_after_receive 4 = some s2 ∧
      s2.blocks 4 = none ∧ s2.blocks 5 = none ∧
      s2.pending 11 4 = none ∧
      s2.accounts 10 = some
        { head := 2, rep_block := 1, open_block := 1, balance := 50,
          block_count := 2, epoch := 0 } ∧
      s2.accounts 11 = some
        { head := 3, rep_block := 3, open_block := 3, balance := 950,
          block_count := 1, epoch := 0 } := by
  obtain ⟨s2, h1, h2, h3, h4, h5, -, h7⟩ :=
    rollback_send_cascades test_cfg store_after_receive 10 11 4 5 2 3
      { head := 4, rep_block := 1, open_block := 1, balance := 25,
        block_count := 3, epoch := 0 }
      { head := 5, rep_block := 3, open_block := 3, balance := 975,
        block_count := 2, epoch := 0 }
      { blk := fix_send2, account := 10, balance := 25, rep_block := 1,
        version := 0 }
      { blk := fix_receive, account := 11, balance := 975, rep_block := 3,
        version := 0 }
      { blk := fix_send, account := 10, balance := 50, rep_block := 1,
        version := 0 }
      { blk := fix_open, account := 11, balance := 950, rep_block := 3,
        version := 0 }
      25 0 0 0
      (by decide) (by decide) (by decide) (by decide) (by decide)
      (Or.inl (by decide)) (by decide) (by decide) (by decide) (by decide)
      (by decide) (by decide)
      (Or.inr (Or.inr ⟨Or.inl (by decide), by decide, by decide⟩))
      (by decide) (by decide) (by decide)
  exact ⟨s2, h1, h2, h3, h4, h5, h7 (Or.inl (by decide))⟩

/-! ## Round-trip infrastructure: pointwise update algebra -/

/-- Updating the same key twice keeps only the second update. -/
theorem upd1_upd1 {α : Type} (f : Nat → α) (k : Nat) (v1 v2 : α) :
    upd1 (upd1 f k v1) k v2 = upd1 f k v2 := by
  funext x
  simp only [upd1]
  split_ifs <;> rfl

/-- Writing back the value a key already has is the identity. -/
theorem upd1_self {α : Type} (f : Nat → α) (k : Nat) (v : α) (hv : f k = v) :
    upd1 f k v = f := by
  funext x
  simp [upd1]
  intro hx
  rw [hx, hv]

/-- Updating the same pending key twice keeps only the second update. -/
theorem upd2_upd2 {α : Type} (f : Nat → Nat → α) (k1 k2 : Nat) (v1 v2 : α) :
    upd2 (upd2 f k1 k2 v1) k1 k2 v2 = upd2 f k1 k2 v2 := by
  funext x y
  simp only [upd2]
  split_ifs <;> rfl

/-- Writing back the value a pending key already has is the identity. -/
theorem upd2_self {α : Type} (f : Nat → Nat → α) (k1 k2 : Nat) (v : α)
    (hv : f k1 k2 = v) : upd2 f k1 k2 v = f := by
  funext x y
  simp only [upd2]
  split
  · next hxy => rw [hxy.1, hxy.2, hv]
  · rfl

/-- Moving weight `x` back from `a` and weight `y` back to `bb` undoes the
move of `x` away from `a` and of `y` onto `bb` (weights are integers, so no
truncation occurs). -/
theorem rep_invert (w : Nat → Int) (a bb : Nat) (x y : Int) :
    repAdd (repSub (repAdd (repSub w a x) bb y) bb y) a x = w := by
  funext z
  by_cases hba : bb = a
  · subst hba
    by_cases hz : z = bb <;> simp [repAdd, repSub, upd1, hz]
  · by_cases hza : z = a <;> by_cases hzb : z = bb <;>
      simp [repAdd, repSub, upd1, hba, hza, hzb] <;> omega

/-- Withdrawing weight `y` from `r` undoes crediting `y` to `r`. -/
theorem rep_invert_open (w : Nat → Int) (r : Nat) (y : Int) :
    repSub (repAdd w r y) r y = w := by
  funext z
  by_cases hz : z = r <;> simp [repAdd, repSub, upd1, hz]

/-- Restoring the frontier entries of `prev` and deleting the one of `h`
undoes moving the frontier from `prev` to `h`. -/
theorem frontier_invert (f : Nat → Option Nat) (prev h : Nat) (A : Nat)
    (_hne : prev ≠ h) (hfp : f prev = some A) (hfh : f h = none) :
    upd1 (upd1 (upd1 (upd1 f prev none) h (some A)) h none) prev (some A) =
      f := by
  funext x
  simp only [upd1]
  split_ifs <;> simp_all

/-- Folding a hash into the checksum twice is the identity (XOR is
self-inverse). -/
theorem checksum_invert (c h : Nat) : Nat.xor (Nat.xor c h) h = c :=
  Nat.xor_cancel_right h c

/-- The key inversion lemma for chain-extending blocks: `undo_extend`
applied to the store produced by `extend_store`, with the previous block's
derived record agreeing with the pre-block account record and the frontier,
successor and pending tables consistent, restores the original store
exactly. -/
theorem undo_extend_inverts (s : Store) (A h prev : Nat) (b : Block)
    (info : account_info) (nbal : Int) (nrb : Nat) (nep : Nat)
    (r_old r_new r_new2 : Nat) (sbp : stored_block)
    (pend pend2 : Nat → Nat → Option pending_info)
    (hbh : s.blocks h = none) (hsbp : s.blocks prev = some sbp)
    (hb : sbp.balance = info.balance) (hrb : sbp.rep_block = info.rep_block)
    (hv : sbp.version = info.epoch)
    (hacc : s.accounts A = some info) (hhead : info.head = prev)
    (hfrp : s.frontier prev = some A) (hfrh : s.frontier h = none)
    (hsucc : s.successor prev = none)
    (hpend : pend2 = s.pending)
    (hr2 : r_new2 = r_new)
    (hro2 : rep_of (extend_store s A h prev b info nbal nrb nep r_old r_new
      pend) sbp.rep_block = r_old) :
    undo_extend (extend_store s A h prev b info nbal nrb nep r_old r_new pend)
      A h prev
      { head := h, rep_block := nrb, open_block := info.open_block,
        balance := nbal, block_count := info.block_count + 1, epoch := nep }
      sbp r_new2 nbal pend2 = s := by
  have hph : prev ≠ h := by
    intro hx
    rw [hx, hbh] at hsbp
    cases hsbp
  obtain ⟨sacc, sblk, spnd, srep, sfr, ssc, schk, scnt⟩ := s
  simp only [undo_extend, extend_store] at hro2 ⊢
  simp only [Store.mk.injEq]
  refine ⟨?_, ?_, ?_, ?_, ?_, ?_, ?_, ?_⟩
  · rw [upd1_upd1]
    apply upd1_self
    simp only at hacc
    rw [hacc, hb, hrb, hv, ← hhead]
    simp
  · rw [upd1_upd1]
    apply upd1_self
    exact hbh
  · exact hpend
  · rw [hro2, hr2, hb]
    exact rep_invert _ _ _ _ _
  · exact frontier_invert _ _ _ _ hph hfrp hfrh
  · rw [upd1_upd1]
    apply upd1_self
    exact hsucc
  · exact checksum_invert _ _
  · rfl

/-- The key inversion lemma for account-opening blocks: `undo_open` applied
to the store produced by `open_store` deletes the account again and undoes
every other table change exactly. -/
theorem undo_open_inverts (s : Store) (A h : Nat) (b : Block) (bal : Int)
    (r_new r2 : Nat) (ep : Nat)
    (pend pend2 : Nat → Nat → Option pending_info)
    (hbh : s.blocks h = none) (hacc : s.accounts A = none)
    (hfrh : s.frontier h = none)
    (hpend : pend2 = s.pending) (hr2 : r2 = r_new) :
    undo_open (open_store s A h b bal r_new ep pend) A h r2 bal pend2 = s := by
  obtain ⟨sacc, sblk, spnd, srep, sfr, ssc, schk, scnt⟩ := s
  simp only [undo_open, open_store, Store.mk.injEq]
  refine ⟨?_, ?_, ?_, ?_, ?_, ?_, ?_, ?_⟩
  · rw [upd1_upd1]
    apply upd1_self
    exact hacc
  · rw [upd1_upd1]
    apply upd1_self
    exact hbh
  · exact hpend
  · rw [hr2]
    exact rep_invert_open _ _ _
  · rw [upd1_upd1]
    apply upd1_self
    exact hfrh
  · trivial
  · exact checksum_invert _ _
  · omega

/-- Rolling back a freshly applied legacy send (the pending entry it
created still unconsumed) restores the original store exactly. -/
theorem rollback_undoes_send (cfg : ledger_config) (s : Store)
    (h prev dest A : Nat) (bal : Int) (b : Block) (info : account_info)
    (sbp : stored_block)
    (hk : b.kind = .send_block prev dest bal)
    (hbh : s.blocks h = none) (hsbp : s.blocks prev = some sbp)
    (hb : sbp.balance = info.balance) (hrb : sbp.rep_block = info.rep_block)
    (hv : sbp.version = info.epoch)
    (hacc : s.accounts A = some info) (hhead : info.head = prev)
    (hfrp : s.frontier prev = some A) (hfrh : s.frontier h = none)
    (hsucc : s.successor prev = none)
    (hrbx : (s.blocks info.rep_block).isSome = true)
    (hpd : s.pending dest h = none) :
    rollback cfg
      (extend_store s A h prev b info bal info.rep_block info.epoch
        (rep_of s info.rep_block) (rep_of s info.rep_block)
        (upd2 s.pending dest h
          (some { source := A, amount := info.balance - bal,
                  epoch := info.epoch })))
      h = some s := by
  obtain ⟨sbr, hsbr⟩ := Option.isSome_iff_exists.mp hrbx
  have hph : prev ≠ h := by
    intro hx
    rw [hx, hbh] at hsbp
    cases hsbp
  have hrbh : info.rep_block ≠ h := by
    intro hx
    rw [hx, hbh] at hsbr
    cases hsbr
  set E := extend_store s A h prev b info bal info.rep_block info.epoch
    (rep_of s info.rep_block) (rep_of s info.rep_block)
    (upd2 s.pending dest h
      (some { source := A, amount := info.balance - bal,
              epoch := info.epoch })) with hE
  have l1 : E.blocks h = some
      { blk := b, account := A, balance := bal, rep_block := info.rep_block,
        version := info.epoch } := by
    simp [hE, extend_store, upd1]
  have l2 : E.accounts A = some
      { head := h, rep_block := info.rep_block, open_block := info.open_block,
        balance := bal, block_count := info.block_count + 1,
        epoch := info.epoch } := by
    simp [hE, extend_store, upd1]
  have l3 : E.blocks prev = some sbp := by
    simp [hE, extend_store, upd1, hph, hsbp]
  have l4 : E.pending dest h = some
      { source := A, amount := info.balance - bal, epoch := info.epoch } := by
    simp [hE, extend_store, upd2]
  have lrep : rep_of E info.rep_block = rep_of s info.rep_block := by
    simp [rep_of, hE, extend_store, upd1, hrbh]
  have lro : rep_of E sbp.rep_block = rep_of s info.rep_block := by
    rw [hrb]
    exact lrep
  have e1 : E.count + 2 = s.count + 1 + 1 + 1 := rfl
  rw [rollback, e1]
  simp only [rollback_loop, l1]
  simp only [undo_head, l2, l1, hk, l3, l4]
  have l5 : (undo_extend E A h prev
      { head := h, rep_block := info.rep_block, open_block := info.open_block,
        balance := bal, block_count := info.block_count + 1,
        epoch := info.epoch } sbp (rep_of E info.rep_block) bal
      (upd2 E.pending dest h none)).blocks h = none := by
    simp [undo_extend, upd1]
  simp only [rollback_loop, l5]
  refine congrArg some ?_
  refine undo_extend_inverts s A h prev b info bal info.rep_block info.epoch
    (rep_of s info.rep_block) (rep_of s info.rep_block)
    (rep_of E info.rep_block) sbp _ _ hbh hsbp hb hrb hv hacc hhead hfrp hfrh
    hsucc ?_ lrep lro
  show upd2 E.pending dest h none = s.pending
  have : E.pending = upd2 s.pending dest h
      (some { source := A, amount := info.balance - bal,
              epoch := info.epoch }) := rfl
  rw [this, upd2_upd2]
  exact upd2_self _ _ _ _ hpd

/-- Rolling back a freshly applied legacy receive recreates the pending
entry it consumed and restores the original store exactly. -/
theorem rollback_undoes_receive (cfg : ledger_config) (s : Store)
    (h prev src A : Nat) (b : Block) (info : account_info)
    (sbp sbs : stored_block) (p : pending_info)
    (hk : b.kind = .receive_block prev src)
    (hbh : s.blocks h = none) (hsbp : s.blocks prev = some sbp)
    (hb : sbp.balance = info.balance) (hrb : sbp.rep_block = info.rep_block)
    (hv : sbp.version = info.epoch)
    (hacc : s.accounts A = some info) (hhead : info.head = prev)
    (hfrp : s.frontier prev = some A) (hfrh : s.frontier h = none)
    (hsucc : s.successor prev = none)
    (hrbx : (s.blocks info.rep_block).isSome = true)
    (hsrc : s.blocks src = some sbs)
    (hpd : s.pending A src = some p)
    (hsa : sbs.account = p.source) (hsv : sbs.version = p.epoch) :
    rollback cfg
      (extend_store s A h prev b info (info.balance + p.amount)
        info.rep_block info.epoch
        (rep_of s info.rep_block) (rep_of s info.rep_block)
        (upd2 s.pending A src none))
      h = some s := by
  obtain ⟨sbr, hsbr⟩ := Option.isSome_iff_exists.mp hrbx
  have hph : prev ≠ h := by
    intro hx
    rw [hx, hbh] at hsbp
    cases hsbp
  have hsh : src ≠ h := by
    intro hx
    rw [hx, hbh] at hsrc
    cases hsrc
  have hrbh : info.rep_block ≠ h := by
    intro hx
    rw [hx, hbh] at hsbr
    cases hsbr
  set E := extend_store s A h prev b info (info.balance + p.amount)
    info.rep_block info.epoch (rep_of s info.rep_block)
    (rep_of s info.rep_block) (upd2 s.pending A src none) with hE
  have l1 : E.blocks h = some
      { blk := b, account := A, balance := info.balance + p.amount,
        rep_block := info.rep_block, version := info.epoch } := by
    simp [hE, extend_store, upd1]
  have l2 : E.accounts A = some
      { head := h, rep_block := info.rep_block, open_block := info.open_block,
        balance := info.balance + p.amount,
        block_count := info.block_count + 1, epoch := info.epoch } := by
    simp [hE, extend_store, upd1]
  have l3 : E.blocks prev = some sbp := by
    simp [hE, extend_store, upd1, hph, hsbp]
  have l4 : E.blocks src = some sbs := by
    simp [hE, extend_store, upd1, hsh, hsrc]
  have lrep : rep_of E info.rep_block = rep_of s info.rep_block := by
    simp [rep_of, hE, extend_store, upd1, hrbh]
  have lro : rep_of E sbp.rep_block = rep_of s info.rep_block := by
    rw [hrb]
    exact lrep
  have e1 : E.count + 2 = s.count + 1 + 1 + 1 := rfl
  rw [rollback, e1]
  simp only [rollback_loop, l1]
  simp only [undo_head, l2, l1, hk, l3, l4]
  have l5 : (undo_extend E A h prev
      { head := h, rep_block := info.rep_block, open_block := info.open_block,
        balance := info.balance + p.amount,
        block_count := info.block_count + 1, epoch := info.epoch } sbp
      (rep_of E info.rep_block) (info.balance + p.amount)
      (upd2 E.pending A src (some
        { source := sbs.account,
          amount := info.balance + p.amount - sbp.balance,
          epoch := sbs.version }))).blocks h = none := by
    simp [undo_extend, upd1]
  simp only [rollback_loop, l5]
  refine congrArg some ?_
  refine undo_extend_inverts s A h prev b info (info.balance + p.amount)
    info.rep_block info.epoch
    (rep_of s info.rep_block) (rep_of s info.rep_block)
    (rep_of E info.rep_block) sbp _ _ hbh hsbp hb hrb hv hacc hhead hfrp hfrh
    hsucc ?_ lrep lro
  show upd2 E.pending A src (some
    { source := sbs.account, amount := info.balance + p.amount - sbp.balance,
      epoch := sbs.version }) = s.pending
  have hpe : E.pending = upd2 s.pending A src none := rfl
  rw [hpe, upd2_upd2, hsa, hsv, hb]
  simp only [add_sub_cancel_left]
  exact upd2_self _ _ _ _ (by rw [hpd])

/-- Rolling back a freshly applied legacy change moves the delegated weight
back to the previous representative and restores the original store
exactly. -/
theorem rollback_undoes_change (cfg : ledger_config) (s : Store)
    (h prev A rep : Nat) (b : Block) (info : account_info)
    (sbp : stored_block)
    (hk : b.kind = .change_block prev rep)
    (hbh : s.blocks h = none) (hsbp : s.blocks prev = some sbp)
    (hb : sbp.balance = info.balance) (hrb : sbp.rep_block = info.rep_block)
    (hv : sbp.version = info.epoch)
    (hacc : s.accounts A = some info) (hhead : info.head = prev)
    (hfrp : s.frontier prev = some A) (hfrh : s.frontier h = none)
    (hsucc : s.successor prev = none)
    (hrbx : (s.blocks info.rep_block).isSome = true) :
    rollback cfg
      (extend_store s A h prev b info info.balance h info.epoch
        (rep_of s info.rep_block) rep s.pending)
      h = some s := by
  obtain ⟨sbr, hsbr⟩ := Option.isSome_iff_exists.mp hrbx
  have hph : prev ≠ h := by
    intro hx
    rw [hx, hbh] at hsbp
    cases hsbp
  have hrbh : info.rep_block ≠ h := by
    intro hx
    rw [hx, hbh] at hsbr
    cases hsbr
  set E := extend_store s A h prev b info info.balance h info.epoch
    (rep_of s info.rep_block) rep s.pending with hE
  have l1 : E.blocks h = some
      { blk := b, account := A, balance := info.balance, rep_block := h,
        version := info.epoch } := by
    simp [hE, extend_store, upd1]
  have l2 : E.accounts A = some
      { head := h, rep_block := h, open_block := info.open_block,
        balance := info.balance, block_count := info.block_count + 1,
        epoch := info.epoch } := by
    simp [hE, extend_store, upd1]
  have l3 : E.blocks prev = some sbp := by
    simp [hE, extend_store, upd1, hph, hsbp]
  have lrep : rep_of E h = rep := by
    simp [rep_of, l1, block_representative, hk]
  have lro : rep_of E sbp.rep_block = rep_of s info.rep_block := by
    rw [hrb]
    simp [rep_of, hE, extend_store, upd1, hrbh]
  have e1 : E.count + 2 = s.count + 1 + 1 + 1 := rfl
  rw [rollback, e1]
  simp only [rollback_loop, l1]
  simp only [undo_head, l2, l1, hk, l3]
  have l5 : (undo_extend E A h prev
      { head := h, rep_block := h, open_block := info.open_block,
        balance := info.balance, block_count := info.block_count + 1,
        epoch := info.epoch } sbp (rep_of E h) info.balance
      E.pending).blocks h = none := by
    simp [undo_extend, upd1]
  simp only [rollback_loop, l5]
  refine congrArg some ?_
  refine undo_extend_inverts s A h prev b info info.balance h info.epoch
    (rep_of s info.rep_block) rep (rep_of E h) sbp _ _ hbh hsbp hb hrb hv
    hacc hhead hfrp hfrh hsucc rfl lrep lro

/-- Rolling back a freshly applied legacy open deletes the new account,
recreates the pending entry it consumed and restores the original store
exactly. -/
theorem rollback_undoes_open (cfg : ledger_config) (s : Store)
    (h src acct rep : Nat) (b : Block) (sbs : stored_block) (p : pending_info)
    (hk : b.kind = .open_block src rep acct)
    (hbh : s.blocks h = none) (hacc : s.accounts acct = none)
    (hfrh : s.frontier h = none)
    (hsrc : s.blocks src = some sbs)
    (hpd : s.pending acct src = some p)
    (hsa : sbs.account = p.source) (hsv : sbs.version = p.epoch) :
    rollback cfg (open_store s acct h b p.amount rep 0
      (upd2 s.pending acct src none)) h = some s := by
  have hsh : src ≠ h := by
    intro hx
    rw [hx, hbh] at hsrc
    cases hsrc
  set E := open_store s acct h b p.amount rep 0 (upd2 s.pending acct src none)
    with hE
  have l1 : E.blocks h = some
      { blk := b, account := acct, balance := p.amount, rep_block := h,
        version := 0 } := by
    simp [hE, open_store, upd1]
  have l2 : E.accounts acct = some
      { head := h, rep_block := h, open_block := h, balance := p.amount,
        block_count := 1, epoch := 0 } := by
    simp [hE, open_store, upd1]
  have l4 : E.blocks src = some sbs := by
    simp [hE, open_store, upd1, hsh, hsrc]
  have lrep : rep_of E h = rep := by
    simp [rep_of, l1, block_representative, hk]
  have e1 : E.count + 2 = s.count + 1 + 1 + 1 := rfl
  rw [rollback, e1]
  simp only [rollback_loop, l1]
  simp only [undo_head, l2, l1, hk, l4]
  have l5 : (undo_open E acct h (rep_of E h) p.amount
      (upd2 E.pending acct src (some
        { source := sbs.account, amount := p.amount,
          epoch := sbs.version }))).blocks h = none := by
    simp [undo_open, upd1]
  simp only [rollback_loop, l5]
  refine congrArg some ?_
  refine undo_open_inverts s acct h b p.amount rep (rep_of E h) 0 _ _ hbh hacc
    hfrh ?_ lrep
  show upd2 E.pending acct src (some
    { source := sbs.account, amount := p.amount, epoch := sbs.version }) =
      s.pending
  have hpe : E.pending = upd2 s.pending acct src none := rfl
  rw [hpe, upd2_upd2, hsa, hsv]
  exact upd2_self _ _ _ _ (by rw [hpd])

/-- Rolling back a freshly applied state send (pending entry unconsumed)
restores the original store exactly. -/
theorem rollback_undoes_state_send (cfg : ledger_config) (s : Store)
    (h prev link A rep : Nat) (bal : Int) (nep : Nat) (b : Block)
    (info : account_info) (sbp : stored_block)
    (hk : b.kind = .state_block A prev rep bal link)
    (hbh : s.blocks h = none) (hsbp : s.blocks prev = some sbp)
    (hb : sbp.balance = info.balance) (hrb : sbp.rep_block = info.rep_block)
    (hv : sbp.version = info.epoch)
    (hacc : s.accounts A = some info) (hhead : info.head = prev)
    (hfrp : s.frontier prev = some A) (hfrh : s.frontier h = none)
    (hsucc : s.successor prev = none)
    (hrbx : (s.blocks info.rep_block).isSome = true)
    (hp0 : prev ≠ 0) (hlt : bal < info.balance)
    (hpd : s.pending link h = none) :
    rollback cfg
      (extend_store s A h prev b info bal h nep (rep_of s info.rep_block) rep
        (upd2 s.pending link h (some
          { source := A, amount := info.balance - bal,
            epoch := info.epoch })))
      h = some s := by
  obtain ⟨sbr, hsbr⟩ := Option.isSome_iff_exists.mp hrbx
  have hph : prev ≠ h := by
    intro hx
    rw [hx, hbh] at hsbp
    cases hsbp
  have hrbh : info.rep_block ≠ h := by
    intro hx
    rw [hx, hbh] at hsbr
    cases hsbr
  set E := extend_store s A h prev b info bal h nep (rep_of s info.rep_block)
    rep (upd2 s.pending link h (some
      { source := A, amount := info.balance - bal, epoch := info.epoch }))
    with hE
  have l1 : E.blocks h = some
      { blk := b, account := A, balance := bal, rep_block := h,
        version := nep } := by
    simp [hE, extend_store, upd1]
  have l2 : E.accounts A = some
      { head := h, rep_block := h, open_block := info.open_block,
        balance := bal, block_count := info.block_count + 1,
        epoch := nep } := by
    simp [hE, extend_store, upd1]
  have l3 : E.blocks prev = some sbp := by
    simp [hE, extend_store, upd1, hph, hsbp]
  have l4 : E.pending link h = some
      { source := A, amount := info.balance - bal, epoch := info.epoch } := by
    simp [hE, extend_store, upd2]
  have hlt2 : bal < sbp.balance := by rw [hb]; exact hlt
  have lrep : rep_of E h = rep := by
    simp [rep_of, l1, block_representative, hk]
  have lro : rep_of E sbp.rep_block = rep_of s info.rep_block := by
    rw [hrb]
    simp [rep_of, hE, extend_store, upd1, hrbh]
  have e1 : E.count + 2 = s.count + 1 + 1 + 1 := rfl
  rw [rollback, e1]
  simp only [rollback_loop, l1]
  simp only [undo_head, l2, l1, hk, l3, l4]
  rw [if_neg hp0, if_pos hlt2]
  have l5 : (undo_extend E A h prev
      { head := h, rep_block := h, open_block := info.open_block,
        balance := bal, block_count := info.block_count + 1, epoch := nep }
      sbp (rep_of E h) bal (upd2 E.pending link h none)).blocks h = none := by
    simp [undo_extend, upd1]
  simp only [rollback_loop, l5]
  refine congrArg some ?_
  refine undo_extend_inverts s A h prev b info bal h nep
    (rep_of s info.rep_block) rep (rep_of E h) sbp _ _ hbh hsbp hb hrb hv
    hacc hhead hfrp hfrh hsucc ?_ lrep lro
  show upd2 E.pending link h none = s.pending
  have hpe : E.pending = upd2 s.pending link h (some
      { source := A, amount := info.balance - bal,
        epoch := info.epoch }) := rfl
  rw [hpe, upd2_upd2]
  exact upd2_self _ _ _ _ hpd

/-- Rolling back a freshly applied state receive recreates the pending
entry it consumed and restores the original store exactly. -/
theorem rollback_undoes_state_receive (cfg : ledger_config) (s : Store)
    (h prev link A rep : Nat) (bal : Int) (nep : Nat) (b : Block)
    (info : account_info) (sbp sbs : stored_block) (p : pending_info)
    (hk : b.kind = .state_block A prev rep bal link)
    (hbh : s.blocks h = none) (hsbp : s.blocks prev = some sbp)
    (hb : sbp.balance = info.balance) (hrb : sbp.rep_block = info.rep_block)
    (hv : sbp.version = info.epoch)
    (hacc : s.accounts A = some info) (hhead : info.head = prev)
    (hfrp : s.frontier prev = some A) (hfrh : s.frontier h = none)
    (hsucc : s.successor prev = none)
    (hrbx : (s.blocks info.rep_block).isSome = true)
    (hp0 : prev ≠ 0) (hge : ¬ bal < info.balance) (hl0 : link ≠ 0)
    (hne : is_epoch_block cfg b link = false)
    (hsrc : s.blocks link = some sbs)
    (hpd : s.pending A link = some p)
    (hsa : sbs.account = p.source) (hsv : sbs.version = p.epoch)
    (hamt : p.amount = bal - info.balance) :
    rollback cfg
      (extend_store s A h prev b info bal h nep (rep_of s info.rep_block) rep
        (upd2 s.pending A link none))
      h = some s := by
  obtain ⟨sbr, hsbr⟩ := Option.isSome_iff_exists.mp hrbx
  have hph : prev ≠ h := by
    intro hx
    rw [hx, hbh] at hsbp
    cases hsbp
  have hsh : link ≠ h := by
    intro hx
    rw [hx, hbh] at hsrc
    cases hsrc
  have hrbh : info.rep_block ≠ h := by
    intro hx
    rw [hx, hbh] at hsbr
    cases hsbr
  set E := extend_store s A h prev b info bal h nep (rep_of s info.rep_block)
    rep (upd2 s.pending A link none) with hE
  have l1 : E.blocks h = some
      { blk := b, account := A, balance := bal, rep_block := h,
        version := nep } := by
    simp [hE, extend_store, upd1]
  have l2 : E.accounts A = some
      { head := h, rep_block := h, open_block := info.open_block,
        balance := bal, block_count := info.block_count + 1,
        epoch := nep } := by
    simp [hE, extend_store, upd1]
  have l3 : E.blocks prev = some sbp := by
    simp [hE, extend_store, upd1, hph, hsbp]
  have l4 : E.blocks link = some sbs := by
    simp [hE, extend_store, upd1, hsh, hsrc]
  have hge2 : ¬ bal < sbp.balance := by rw [hb]; exact hge
  have lrep : rep_of E h = rep := by
    simp [rep_of, l1, block_representative, hk]
  have lro : rep_of E sbp.rep_block = rep_of s info.rep_block := by
    rw [hrb]
    simp [rep_of, hE, extend_store, upd1, hrbh]
  have e1 : E.count + 2 = s.count + 1 + 1 + 1 := rfl
  rw [rollback, e1]
  simp only [rollback_loop, l1]
  simp only [undo_head, l2, l1, hk, l3, l4]
  rw [if_neg hp0, if_neg hge2, if_pos (And.intro hl0 (by rw [hne]; simp))]
  have l5 : (undo_extend E A h prev
      { head := h, rep_block := h, open_block := info.open_block,
        balance := bal, block_count := info.block_count + 1, epoch := nep }
      sbp (rep_of E h) bal
      (upd2 E.pending A link (some
        { source := sbs.account, amount := bal - sbp.balance,
          epoch := sbs.version }))).blocks h = none := by
    simp [undo_extend, upd1]
  simp only [rollback_loop, l5]
  refine congrArg some ?_
  refine undo_extend_inverts s A h prev b info bal h nep
    (rep_of s info.rep_block) rep (rep_of E h) sbp _ _ hbh hsbp hb hrb hv
    hacc hhead hfrp hfrh hsucc ?_ lrep lro
  show upd2 E.pending A link (some
    { source := sbs.account, amount := bal - sbp.balance,
      epoch := sbs.version }) = s.pending
  have hpe : E.pending = upd2 s.pending A link none := rfl
  rw [hpe, upd2_upd2, hsa, hsv, hb, ← hamt]
  exact upd2_self _ _ _ _ (by rw [hpd])

/-- Rolling back a freshly applied state block that moved no value (a pure
representative change, or an epoch upgrade) restores the original store
exactly. -/
theorem rollback_undoes_state_still (cfg : ledger_config) (s : Store)
    (h prev link A rep : Nat) (bal : Int) (nep : Nat) (b : Block)
    (info : account_info) (sbp : stored_block)
    (hk : b.kind = .state_block A prev rep bal link)
    (hbh : s.blocks h = none) (hsbp : s.blocks prev = some sbp)
    (hb : sbp.balance = info.balance) (hrb : sbp.rep_block = info.rep_block)
    (hv : sbp.version = info.epoch)
    (hacc : s.accounts A = some info) (hhead : info.head = prev)
    (hfrp : s.frontier prev = some A) (hfrh : s.frontier h = none)
    (hsucc : s.successor prev = none)
    (hrbx : (s.blocks info.rep_block).isSome = true)
    (hp0 : prev ≠ 0) (hbe : bal = info.balance)
    (hcond : link = 0 ∨ is_epoch_block cfg b link = true) :
    rollback cfg
      (extend_store s A h prev b info bal h nep (rep_of s info.rep_block) rep
        s.pending)
      h = some s := by
  obtain ⟨sbr, hsbr⟩ := Option.isSome_iff_exists.mp hrbx
  have hph : prev ≠ h := by
    intro hx
    rw [hx, hbh] at hsbp
    cases hsbp
  have hrbh : info.rep_block ≠ h := by
    intro hx
    rw [hx, hbh] at hsbr
    cases hsbr
  set E := extend_store s A h prev b info bal h nep (rep_of s info.rep_block)
    rep s.pending with hE
  have l1 : E.blocks h = some
      { blk := b, account := A, balance := bal, rep_block := h,
        version := nep } := by
    simp [hE, extend_store, upd1]
  have l2 : E.accounts A = some
      { head := h, rep_block := h, open_block := info.open_block,
        balance := bal, block_count := info.block_count + 1,
        epoch := nep } := by
    simp [hE, extend_store, upd1]
  have l3 : E.blocks prev = some sbp := by
    simp [hE, extend_store, upd1, hph, hsbp]
  have hge2 : ¬ bal < sbp.balance := by rw [hb, hbe]; exact lt_irrefl _
  have hc2 : ¬ (link ≠ 0 ∧ ¬ (is_epoch_block cfg b link = true)) := by
    rcases hcond with hc | hc
    · intro hx
      exact hx.1 hc
    · intro hx
      exact hx.2 hc
  have lrep : rep_of E h = rep := by
    simp [rep_of, l1, block_representative, hk]
  have lro : rep_of E sbp.rep_block = rep_of s info.rep_block := by
    rw [hrb]
    simp [rep_of, hE, extend_store, upd1, hrbh]
  have e1 : E.count + 2 = s.count + 1 + 1 + 1 := rfl
  rw [rollback, e1]
  simp only [rollback_loop, l1]
  simp only [undo_head, l2, l1, hk, l3]
  rw [if_neg hp0, if_neg hge2, if_neg hc2]
  have l5 : (undo_extend E A h prev
      { head := h, rep_block := h, open_block := info.open_block,
        balance := bal, block_count := info.block_count + 1, epoch := nep }
      sbp (rep_of E h) bal E.pending).blocks h = none := by
    simp [undo_extend, upd1]
  simp only [rollback_loop, l5]
  refine congrArg some ?_
  exact undo_extend_inverts s A h prev b info bal h nep
    (rep_of s info.rep_block) rep (rep_of E h) sbp _ _ hbh hsbp hb hrb hv
    hacc hhead hfrp hfrh hsucc rfl lrep lro

/-- Rolling back a freshly applied epoch open (zero-balance account created
by an epoch block) deletes the account and restores the original store
exactly. -/
theorem rollback_undoes_epoch_open (cfg : ledger_config) (s : Store)
    (h link acct rep : Nat) (bal : Int) (ep : Nat) (b : Block)
    (hk : b.kind = .state_block acct 0 rep bal link)
    (hbh : s.blocks h = none) (hacc : s.accounts acct = none)
    (hfrh : s.frontier h = none)
    (hep : is_epoch_block cfg b link = true) :
    rollback cfg (open_store s acct h b bal rep ep s.pending) h = some s := by
  set E := open_store s acct h b bal rep ep s.pending with hE
  have l1 : E.blocks h = some
      { blk := b, account := acct, balance := bal, rep_block := h,
        version := ep } := by
    simp [hE, open_store, upd1]
  have l2 : E.accounts acct = some
      { head := h, rep_block := h, open_block := h, balance := bal,
        block_count := 1, epoch := ep } := by
    simp [hE, open_store, upd1]
  have lrep : rep_of E h = rep := by
    simp [rep_of, l1, block_representative, hk]
  have e1 : E.count + 2 = s.count + 1 + 1 + 1 := rfl
  rw [rollback, e1]
  simp only [rollback_loop, l1]
  simp only [undo_head, l2, l1, hk, hep]
  simp only [if_pos rfl, if_true]
  have l5 : (undo_open E acct h (rep_of E h) bal E.pending).blocks h =
      none := by
    simp [undo_open, upd1]
  simp only [rollback_loop, l5]
  refine congrArg some ?_
  exact undo_open_inverts s acct h b bal rep (rep_of E h) ep _ _ hbh hacc
    hfrh rfl lrep

/-- Rolling back a freshly applied state open (receiving open) deletes the
account, recreates the pending entry and restores the original store
exactly. -/
theorem rollback_undoes_state_open (cfg : ledger_config) (s : Store)
    (h link acct rep : Nat) (bal : Int) (ep : Nat) (b : Block)
    (sbs : stored_block) (p : pending_info)
    (hk : b.kind = .state_block acct 0 rep bal link)
    (hbh : s.blocks h = none) (hacc : s.accounts acct = none)
    (hfrh : s.frontier h = none)
    (hne : is_epoch_block cfg b link = false)
    (hsrc : s.blocks link = some sbs)
    (hpd : s.pending acct link = some p)
    (hsa : sbs.account = p.source) (hsv : sbs.version = p.epoch)
    (hamt : p.amount = bal) :
    rollback cfg (open_store s acct h b bal rep ep
      (upd2 s.pending acct link none)) h = some s := by
  have hsh : link ≠ h := by
    intro hx
    rw [hx, hbh] at hsrc
    cases hsrc
  set E := open_store s acct h b bal rep ep (upd2 s.pending acct link none)
    with hE
  have l1 : E.blocks h = some
      { blk := b, account := acct, balance := bal, rep_block := h,
        version := ep } := by
    simp [hE, open_store, upd1]
  have l2 : E.accounts acct = some
      { head := h, rep_block := h, open_block := h, balance := bal,
        block_count := 1, epoch := ep } := by
    simp [hE, open_store, upd1]
  have l4 : E.blocks link = some sbs := by
    simp [hE, open_store, upd1, hsh, hsrc]
  have lrep : rep_of E h = rep := by
    simp [rep_of, l1, block_representative, hk]
  have e1 : E.count + 2 = s.count + 1 + 1 + 1 := rfl
  rw [rollback, e1]
  simp only [rollback_loop, l1]
  simp only [undo_head, l2, l1, hk, hne, l4]
  simp only [if_pos rfl, if_true, Bool.false_eq_true, if_false]
  have l5 : (undo_open E acct h (rep_of E h) bal
      (upd2 E.pending acct link (some
        { source := sbs.account, amount := bal,
          epoch := sbs.version }))).blocks h = none := by
    simp [undo_open, upd1]
  simp only [rollback_loop, l5]
  refine congrArg some ?_
  refine undo_open_inverts s acct h b bal rep (rep_of E h) ep _ _ hbh hacc
    hfrh ?_ lrep
  show upd2 E.pending acct link (some
    { source := sbs.account, amount := bal, epoch := sbs.version }) =
      s.pending
  have hpe : E.pending = upd2 s.pending acct link none := rfl
  rw [hpe, upd2_upd2, hsa, hsv, ← hamt]
  exact upd2_self _ _ _ _ (by rw [hpd])

/-- Agreement between the previous block's stored derived record, the
successor table and the account record of an account about to be extended:
the previous block carries the account's current balance, representative
block and epoch, it has no successor, and the representative block is
stored.  These hold on every reachable store (invariants I1/I5 and the
derived-record discipline of the store model). -/
def chain_ok (s : Store) (prev : Nat) (info : account_info) : Bool :=
  decide (s.successor prev = none) &&
  (match s.blocks prev with
   | some sbp => decide (sbp.balance = info.balance ∧
       sbp.rep_block = info.rep_block ∧ sbp.version = info.epoch)
   | none => false) &&
  decide (s.blocks info.rep_block ≠ none)

/-- Agreement between a pending entry and the send block that created it:
the stored source block names the pending source account and was stored
under the pending epoch (invariant I3 in the store model). -/
def source_ok (s : Store) (acct src : Nat) : Bool :=
  match s.pending acct src, s.blocks src with
  | some p, some sbs =>
      decide (sbs.account = p.source ∧ sbs.version = p.epoch)
  | _, _ => false

/-- The reachable-store conditions under which a freshly accepted block can
be rolled back to exactly the pre-acceptance store: the new hash has no
frontier entry yet, the extended account's chain data is consistent
(`chain_ok`), a consumed pending entry agrees with its source block
(`source_ok`), and a created pending entry does not collide with an
existing one. -/
def rt_ok (cfg : ledger_config) (s : Store) (h : Nat) (b : Block) : Bool :=
  decide (s.frontier h = none) &&
  match b.kind with
  | .send_block prev dest _ =>
    (match s.frontier prev with
     | some A =>
       (match s.accounts A with
        | some info =>
            chain_ok s prev info && decide (s.pending dest h = none)
        | none => false)
     | none => false)
  | .receive_block prev src =>
    (match s.frontier prev with
     | some A =>
       (match s.accounts A with
        | some info => chain_ok s prev info && source_ok s A src
        | none => false)
     | none => false)
  | .open_block src _ acct => source_ok s acct src
  | .change_block prev _ =>
    (match s.frontier prev with
     | some A =>
       (match s.accounts A with
        | some info => chain_ok s prev info
        | none => false)
     | none => false)
  | .state_block acct prev _ bal link =>
    if prev = 0 then
      is_epoch_block cfg b link || source_ok s acct link
    else
      (match s.accounts acct with
       | some info =>
         chain_ok s prev info && decide (s.frontier prev = some acct) &&
         (if is_epoch_block cfg b link then true
          else if bal < info.balance then decide (s.pending link h = none)
          else if link ≠ 0 then source_ok s acct link
          else true)
       | none => false)

/-- C1: round-trip law. Any block accepted by `process` with result
`progress` from a store satisfying the reachable-store conditions `rt_ok`
can be rolled back: `rollback` of its hash succeeds, and re-processing the
same block from the rolled-back store returns `progress` and reproduces
the post-acceptance store exactly (same accounts, blocks, pending entries,
weights, frontier, successor table, checksum and count). -/
theorem process_rollback_roundtrip (cfg : ledger_config) (s s2 : Store)
    (h : Nat) (b : Block)
    (hp : process cfg s h b = ⟨process_result.progress, s2⟩)
    (hok : rt_ok cfg s h b = true) :
    ∃ s1, rollback cfg s2 h = some s1 ∧
      process cfg s1 h b = ⟨process_result.progress, s2⟩ := by
  have hporig := hp
  rcases hwk : b.work_ok with _ | _
  · simp [process, hwk] at hp
  rcases hold : (s.blocks h).isSome with _ | _
  swap
  · simp [process, hwk, hold] at hp
  have hbh : s.blocks h = none := by
    rcases hx : s.blocks h with _ | v
    · rfl
    · rw [hx] at hold
      cases hold
  have hfh : s.frontier h = none := by
    have := hok
    simp only [rt_ok, Bool.and_eq_true, decide_eq_true_eq] at this
    exact this.1
  rcases hbk : b.kind with ⟨prev, dest, bal⟩ | ⟨prev, src⟩ | ⟨src, rep, acct⟩ | ⟨prev, rep⟩ | ⟨acct, prev, rep, bal, link⟩
  · -- legacy send
    simp only [process, hwk, hbh, hbk, Option.isSome_none] at hp
    rcases hfp : s.blocks prev with _ | sbp0
    · simp [process_send, hfp] at hp
    rcases hfr : s.frontier prev with _ | A
    · simp [process_send, hfp, hfr] at hp
    by_cases hsig : b.signer = A
    swap
    · simp [process_send, hfp, hfr, hsig] at hp
    rcases hacc : s.accounts A with _ | info
    · simp [process_send, hfp, hfr, hsig, hacc] at hp
    by_cases hhead : info.head = prev
    swap
    · simp [process_send, hfp, hfr, hsig, hacc, hhead] at hp
    rcases hleg : legacy_blocked s info with _ | _
    swap
    · simp [process_send, hfp, hfr, hsig, hacc, hhead, hleg] at hp
    by_cases hlt : info.balance < bal
    · simp [process_send, hfp, hfr, hsig, hacc, hhead, hleg, hlt] at hp
    simp [process_send, hfp, hfr, hsig, hacc, hhead, hleg, hlt] at hp
    subst hp
    simp only [rt_ok, hbk, hfr, hacc, chain_ok, hfp, Bool.and_eq_true,
      decide_eq_true_eq] at hok
    obtain ⟨-, ⟨⟨hsc, hb1, hb2, hb3⟩, hrbx⟩, hpd⟩ := hok
    exact ⟨s, rollback_undoes_send cfg s h prev dest A bal b info sbp0 hbk
      hbh hfp hb1 hb2 hb3 hacc hhead hfr hfh hsc
      (Option.isSome_iff_ne_none.mpr hrbx) hpd, hporig⟩
  · -- legacy receive
    simp only [process, hwk, hbh, hbk, Option.isSome_none] at hp
    rcases hfp : s.blocks prev with _ | sbp0
    · simp [process_receive, hfp] at hp
    rcases hfr : s.frontier prev with _ | A
    · simp [process_receive, hfp, hfr] at hp
    by_cases hsig : b.signer = A
    swap
    · simp [process_receive, hfp, hfr, hsig] at hp
    rcases hacc : s.accounts A with _ | info
    · simp [process_receive, hfp, hfr, hsig, hacc] at hp
    by_cases hhead : info.head = prev
    swap
    · simp [process_receive, hfp, hfr, hsig, hacc, hhead] at hp
    rcases hleg : legacy_blocked s info with _ | _
    swap
    · simp [process_receive, hfp, hfr, hsig, hacc, hhead, hleg] at hp
    rcases hsrc : s.blocks src with _ | sbs
    · simp [process_receive, hfp, hfr, hsig, hacc, hhead, hleg, hsrc] at hp
    rcases hpd : s.pending A src with _ | p
    · simp [process_receive, hfp, hfr, hsig, hacc, hhead, hleg, hsrc,
        hpd] at hp
    by_cases hpe : p.epoch = 0
    swap
    · simp [process_receive, hfp, hfr, hsig, hacc, hhead, hleg, hsrc, hpd,
        hpe] at hp
    simp [process_receive, hfp, hfr, hsig, hacc, hhead, hleg, hsrc, hpd,
      hpe] at hp
    subst hp
    simp only [rt_ok, hbk, hfr, hacc, chain_ok, source_ok, hfp, hpd, hsrc,
      Bool.and_eq_true, decide_eq_true_eq] at hok
    obtain ⟨-, ⟨⟨hsc, hb1, hb2, hb3⟩, hrbx⟩, hsa, hsv⟩ := hok
    exact ⟨s, rollback_undoes_receive cfg s h prev src A b info sbp0 sbs p
      hbk hbh hfp hb1 hb2 hb3 hacc hhead hfr hfh hsc
      (Option.isSome_iff_ne_none.mpr hrbx) hsrc hpd hsa hsv, hporig⟩
  · -- legacy open
    simp only [process, hwk, hbh, hbk, Option.isSome_none] at hp
    by_cases hsig : b.signer = acct
    swap
    · simp [process_open, hsig] at hp
    by_cases hb0 : acct = 0
    · simp [process_open, hsig, hb0] at hp
    rcases hacc : s.accounts acct with _ | info0
    swap
    · simp [process_open, hsig, hb0, hacc] at hp
    rcases hsrc : s.blocks src with _ | sbs
    · simp [process_open, hsig, hb0, hacc, hsrc] at hp
    rcases hpd : s.pending acct src with _ | p
    · simp [process_open, hsig, hb0, hacc, hsrc, hpd] at hp
    by_cases hpe : p.epoch = 0
    swap
    · simp [process_open, hsig, hb0, hacc, hsrc, hpd, hpe] at hp
    simp [process_open, hsig, hb0, hacc, hsrc, hpd, hpe] at hp
    subst hp
    simp only [rt_ok, hbk, source_ok, hpd, hsrc, Bool.and_eq_true,
      decide_eq_true_eq] at hok
    obtain ⟨-, hsa, hsv⟩ := hok
    exact ⟨s, rollback_undoes_open cfg s h src acct rep b sbs p hbk hbh hacc
      hfh hsrc hpd hsa hsv, hporig⟩
  · -- legacy change
    simp only [process, hwk, hbh, hbk, Option.isSome_none] at hp
    rcases hfp : s.blocks prev with _ | sbp0
    · simp [process_change, hfp] at hp
    rcases hfr : s.frontier prev with _ | A
    · simp [process_change, hfp, hfr] at hp
    by_cases hsig : b.signer = A
    swap
    · simp [process_change, hfp, hfr, hsig] at hp
    rcases hacc : s.accounts A with _ | info
    · simp [process_change, hfp, hfr, hsig, hacc] at hp
    by_cases hhead : info.head = prev
    swap
    · simp [process_change, hfp, hfr, hsig, hacc, hhead] at hp
    rcases hleg : legacy_blocked s info with _ | _
    swap
    · simp [process_change, hfp, hfr, hsig, hacc, hhead, hleg] at hp
    simp [process_change, hfp, hfr, hsig, hacc, hhead, hleg] at hp
    subst hp
    simp only [rt_ok, hbk, hfr, hacc, chain_ok, hfp, Bool.and_eq_true,
      decide_eq_true_eq] at hok
    obtain ⟨-, ⟨hsc, hb1, hb2, hb3⟩, hrbx⟩ := hok
    exact ⟨s, rollback_undoes_change cfg s h prev A rep b info sbp0 hbk hbh
      hfp hb1 hb2 hb3 hacc hhead hfr hfh hsc
      (Option.isSome_iff_ne_none.mpr hrbx), hporig⟩
  · -- state block
    simp only [process, hwk, hbh, hbk, Option.isSome_none] at hp
    by_cases hauth : is_epoch_block cfg b link = true ∨ b.signer = acct
    swap
    · simp [process_state, hauth] at hp
    rcases hacc : s.accounts acct with _ | info
    · -- account not yet opened: the open paths
      by_cases hp0 : prev = 0
      swap
      · simp [process_state, hauth, hacc, hp0] at hp
      subst hp0
      rcases hep : is_epoch_block cfg b link with _ | _
      · -- receiving state open
        have hsig : b.signer = acct := hauth.resolve_left (by simp [hep])
        rcases hsrc : s.blocks link with _ | sbs
        · simp [process_state, hauth, hsig, hacc, hep, hsrc] at hp
        rcases hpd : s.pending acct link with _ | p
        · simp [process_state, hauth, hsig, hacc, hep, hsrc, hpd] at hp
        by_cases hamt : p.amount = bal
        swap
        · simp [process_state, hauth, hsig, hacc, hep, hsrc, hpd, hamt] at hp
        simp [process_state, hauth, hsig, hacc, hep, hsrc, hpd, hamt] at hp
        subst hp
        simp [rt_ok, hbk, source_ok, hpd, hsrc, hep] at hok
        obtain ⟨-, hsa, hsv⟩ := hok
        exact ⟨s, rollback_undoes_state_open cfg s h link acct rep bal
          p.epoch b sbs p hbk hbh hacc hfh hep hsrc hpd hsa hsv hamt,
          hporig⟩
      · -- epoch open
        by_cases hrep : rep = 0
        swap
        · simp [process_state, hauth, hacc, hep, hrep] at hp
        by_cases hbal : bal = 0
        swap
        · simp [process_state, hauth, hacc, hep, hrep, hbal] at hp
        simp [process_state, hauth, hacc, hep, hrep, hbal] at hp
        subst hp
        subst hbal
        subst hrep
        exact ⟨s, rollback_undoes_epoch_open cfg s h link acct 0 0 1 b hbk
          hbh hacc hfh hep, hporig⟩
    · -- account already opened: the chain paths
      by_cases hp0 : prev = 0
      · simp [process_state, hauth, hacc, hp0] at hp
      rcases hfp : s.blocks prev with _ | sbp0
      · simp [process_state, hauth, hacc, hp0, hfp] at hp
      by_cases hhead : info.head = prev
      swap
      · simp [process_state, hauth, hacc, hp0, hfp, hhead] at hp
      rcases hep : is_epoch_block cfg b link with _ | _
      · -- not an epoch block
        have hsig : b.signer = acct := hauth.resolve_left (by simp [hep])
        by_cases hlt : bal < info.balance
        · -- state send
          simp [process_state, hauth, hsig, hacc, hp0, hfp, hhead, hep, hlt] at hp
          subst hp
          simp [rt_ok, hbk, hacc, chain_ok, hfp, hp0, hep, hlt] at hok
          obtain ⟨-, ⟨⟨⟨hsc, hb1, hb2, hb3⟩, hrbx⟩, hfr⟩, hpd⟩ := hok
          exact ⟨s, rollback_undoes_state_send cfg s h prev link acct rep
            bal info.epoch b info sbp0 hbk hbh hfp hb1 hb2 hb3 hacc hhead
            hfr hfh hsc (Option.isSome_iff_ne_none.mpr hrbx) hp0 hlt hpd,
            hporig⟩
        · by_cases hl0 : link = 0
          · -- pure representative change
            rw [hl0] at hep
            by_cases hbe : bal = info.balance
            swap
            · simp [process_state, hauth, hsig, hacc, hp0, hfp, hhead, hep,
                hlt, hl0, hbe] at hp
            simp [process_state, hauth, hsig, hacc, hp0, hfp, hhead, hep,
              hlt, hl0, hbe] at hp
            subst hp
            simp [rt_ok, hbk, hacc, chain_ok, hfp, hp0, hep, hlt, hl0]
              at hok
            obtain ⟨-, ⟨⟨hsc, hb1, hb2, hb3⟩, hrbx⟩, hfr⟩ := hok
            subst hbe
            exact ⟨s, rollback_undoes_state_still cfg s h prev link acct rep
              info.balance info.epoch b info sbp0 hbk hbh hfp hb1 hb2 hb3
              hacc hhead hfr hfh hsc (Option.isSome_iff_ne_none.mpr hrbx)
              hp0 rfl (Or.inl hl0), hporig⟩
          · -- state receive
            rcases hsrc : s.blocks link with _ | sbs
            · simp [process_state, hauth, hsig, hacc, hp0, hfp, hhead, hep,
                hlt, hl0, hsrc] at hp
            rcases hpd : s.pending acct link with _ | p
            · simp [process_state, hauth, hsig, hacc, hp0, hfp, hhead, hep,
                hlt, hl0, hsrc, hpd] at hp
            by_cases hamt : p.amount = bal - info.balance
            swap
            · simp [process_state, hauth, hsig, hacc, hp0, hfp, hhead, hep,
                hlt, hl0, hsrc, hpd, hamt] at hp
            simp [process_state, hauth, hsig, hacc, hp0, hfp, hhead, hep,
              hlt, hl0, hsrc, hpd, hamt] at hp
            subst hp
            simp [rt_ok, hbk, hacc, chain_ok, source_ok, hfp, hp0, hep,
              hlt, hl0, hpd, hsrc] at hok
            obtain ⟨-, ⟨⟨⟨hsc, hb1, hb2, hb3⟩, hrbx⟩, hfr⟩, hsa, hsv⟩ := hok
            exact ⟨s, rollback_undoes_state_receive cfg s h prev link acct
              rep bal (max info.epoch p.epoch) b info sbp0 sbs p hbk hbh
              hfp hb1 hb2 hb3 hacc hhead hfr hfh hsc
              (Option.isSome_iff_ne_none.mpr hrbx) hp0 hlt hl0 hep hsrc
              hpd hsa hsv hamt, hporig⟩
      · -- epoch upgrade
        by_cases hrep : rep = rep_of s info.rep_block
        swap
        · simp [process_state, hauth, hacc, hp0, hfp, hhead, hep, hrep] at hp
        by_cases hbe : bal = info.balance
        swap
        · simp [process_state, hauth, hacc, hp0, hfp, hhead, hep, hrep,
            hbe] at hp
        by_cases hzep : info.epoch = 0
        swap
        · simp [process_state, hauth, hacc, hp0, hfp, hhead, hep, hrep, hbe,
            hzep] at hp
        simp [process_state, hauth, hacc, hp0, hfp, hhead, hep, hrep, hbe,
          hzep] at hp
        subst hp
        simp [rt_ok, hbk, hacc, chain_ok, hfp, hp0, hep] at hok
        obtain ⟨-, ⟨⟨hsc, hb1, hb2, hb3⟩, hrbx⟩, hfr⟩ := hok
        subst hbe
        subst hrep
        exact ⟨s, rollback_undoes_state_still cfg s h prev link acct
          (rep_of s info.rep_block) info.balance 1 b info sbp0 hbk hbh hfp
          hb1 hb2 hb3 hacc hhead hfr hfh hsc
          (Option.isSome_iff_ne_none.mpr hrbx) hp0 rfl (Or.inr hep),
          hporig⟩

/-- Concrete instance of the round-trip law: the fixture legacy send on the
genesis store. -/
theorem process_rollback_roundtrip_witness :
    ∃ s1, rollback test_cfg store_after_send 2 = some s1 ∧
      process test_cfg s1 2 fix_send =
        ⟨process_result.progress, store_after_send⟩ :=
  process_rollback_roundtrip test_cfg genesis_store store_after_send 2
    fix_send rfl (by decide)

/-- Modelled from the spec: `balance(A)` of the store interface read as a
total function — the balance recorded for an opened account, 0 for an
account with no record (the summand of invariant P4's right-hand side). -/
def acct_bal (s : Store) (a : Nat) : Int :=
  match s.accounts a with
  | some info => info.balance
  | none => 0

/-- Modelled from the spec: the total representation weight over a finite
support set of representatives (the left-hand side of invariant P4,
relativised to a finite support since the modelled weight table is a total
function). -/
def wsum (s : Store) (S : Finset Nat) : Int := ∑ r ∈ S, s.rep r

/-- Modelled from the spec: the total balance of the opened accounts in a
finite support set (the right-hand side of invariant P4). -/
def bsum (s : Store) (S : Finset Nat) : Int := ∑ a ∈ S, acct_bal s a

/-- The account a block would open: its account field for the two opening
kinds, 0 for the legacy chain-extending kinds (which never create an
account). -/
def blk_account : block_kind → Nat
  | .open_block _ _ acct => acct
  | .state_block acct _ _ _ _ => acct
  | _ => 0

/-- Modelled from the spec: a support set `S` is adequate for store `s` when
it contains the burn/default representative 0, every opened account, and
every representative resolvable from a stored block; `inv_ok` packages this
with invariant P4 itself (total weight = total opened balance over `S`). -/
def inv_ok (S : Finset Nat) (s : Store) : Prop :=
  0 ∈ S ∧ (∀ a i, s.accounts a = some i → a ∈ S) ∧
    (∀ x, rep_of s x ∈ S) ∧ wsum s S = bsum s S

theorem sum_upd1 (f : Nat → Int) (k : Nat) (v : Int) (S : Finset Nat)
    (hk : k ∈ S) :
    (∑ r ∈ S, upd1 f k v r) = (∑ r ∈ S, f r) + (v - f k) := by
  have hpt : ∀ r, upd1 f k v r = f r + (if r = k then v - f k else 0) := by
    intro r
    by_cases hr : r = k <;> simp [upd1, hr]
  calc (∑ r ∈ S, upd1 f k v r)
      = ∑ r ∈ S, (f r + if r = k then v - f k else 0) :=
        Finset.sum_congr rfl (fun r _ => hpt r)
    _ = (∑ r ∈ S, f r) + (∑ r ∈ S, if r = k then v - f k else 0) :=
        Finset.sum_add_distrib
    _ = (∑ r ∈ S, f r) + (v - f k) := by
        rw [Finset.sum_ite_eq' S k (fun _ => v - f k), if_pos hk]

theorem wsum_of_rep_addsub (s s2 : Store) (r1 r2 : Nat) (y x : Int)
    (S : Finset Nat) (hr : s2.rep = repAdd (repSub s.rep r1 y) r2 x)
    (h1 : r1 ∈ S) (h2 : r2 ∈ S) :
    wsum s2 S = wsum s S - y + x := by
  have e1 := sum_upd1 s.rep r1 (s.rep r1 - y) S h1
  have e2 := sum_upd1 (upd1 s.rep r1 (s.rep r1 - y)) r2
    (upd1 s.rep r1 (s.rep r1 - y) r2 + x) S h2
  simp only [wsum, hr, repAdd, repSub]
  rw [e2, e1]
  ring

theorem wsum_of_rep_add (s s2 : Store) (r : Nat) (x : Int) (S : Finset Nat)
    (hr : s2.rep = repAdd s.rep r x) (h1 : r ∈ S) :
    wsum s2 S = wsum s S + x := by
  have e1 := sum_upd1 s.rep r (s.rep r + x) S h1
  simp only [wsum, hr, repAdd]
  rw [e1]
  ring

theorem wsum_of_rep_sub (s s2 : Store) (r : Nat) (x : Int) (S : Finset Nat)
    (hr : s2.rep = repSub s.rep r x) (h1 : r ∈ S) :
    wsum s2 S = wsum s S - x := by
  have e1 := sum_upd1 s.rep r (s.rep r - x) S h1
  simp only [wsum, hr, repSub]
  rw [e1]
  ring

theorem acct_bal_some (s : Store) (A : Nat) (i : account_info)
    (hA : s.accounts A = some i) : acct_bal s A = i.balance := by
  simp [acct_bal, hA]

theorem acct_bal_none (s : Store) (A : Nat)
    (hA : s.accounts A = none) : acct_bal s A = 0 := by
  simp [acct_bal, hA]

theorem bsum_upd_some (s s2 : Store) (A : Nat) (i : account_info)
    (S : Finset Nat) (ha : s2.accounts = upd1 s.accounts A (some i))
    (hA : A ∈ S) :
    bsum s2 S = bsum s S + (i.balance - acct_bal s A) := by
  have hpt : ∀ a, acct_bal s2 a = upd1 (acct_bal s) A i.balance a := by
    intro a
    by_cases hx : a = A <;> simp [acct_bal, ha, upd1, hx]
  simp only [bsum]
  rw [Finset.sum_congr rfl (fun a _ => hpt a), sum_upd1 _ _ _ _ hA]

theorem bsum_upd_none (s s2 : Store) (A : Nat)
    (S : Finset Nat) (ha : s2.accounts = upd1 s.accounts A none)
    (hA : A ∈ S) :
    bsum s2 S = bsum s S - acct_bal s A := by
  have hpt : ∀ a, acct_bal s2 a = upd1 (acct_bal s) A 0 a := by
    intro a
    by_cases hx : a = A <;> simp [acct_bal, ha, upd1, hx]
  simp only [bsum]
  rw [Finset.sum_congr rfl (fun a _ => hpt a), sum_upd1 _ _ _ _ hA]
  ring

set_option maxHeartbeats 2000000 in
/-- Every progress outcome of the processor is one of the two store
mutations: a chain extension of an existing account (withdrawing the old
balance from the representative resolved at the account's rep block and
crediting either that same representative or the block's named one), or the
creation of the block's named account crediting the block's named
representative. -/
theorem process_progress_shape (cfg : ledger_config) (s : Store) (h : Nat)
    (b : Block) (s2 : Store)
    (hp : process cfg s h b = ⟨process_result.progress, s2⟩) :
    (∃ A info prev nbal nrb nep r_new pend,
        s.accounts A = some info ∧
        (r_new = rep_of s info.rep_block ∨
          r_new = block_representative b.kind) ∧
        s2 = extend_store s A h prev b info nbal nrb nep
          (rep_of s info.rep_block) r_new pend) ∨
    (∃ bal ep pend,
        s.accounts (blk_account b.kind) = none ∧
        s2 = open_store s (blk_account b.kind) h b bal
          (block_representative b.kind) ep pend) := by
  rcases hwk : b.work_ok with _ | _
  · simp [process, hwk] at hp
  rcases hold : (s.blocks h).isSome with _ | _
  swap
  · simp [process, hwk, hold] at hp
  have hbh : s.blocks h = none := by
    rcases hx : s.blocks h with _ | v
    · rfl
    · rw [hx] at hold
      cases hold
  rcases hbk : b.kind with ⟨prev, dest, bal⟩ | ⟨prev, src⟩ | ⟨src, rep, acct⟩ | ⟨prev, rep⟩ | ⟨acct, prev, rep, bal, link⟩
  all_goals simp only [process, hwk, hbh, hbk, Option.isSome_none,
    Bool.false_eq_true, if_false, if_true, ite_self] at hp
  all_goals simp only [hbk, blk_account, block_representative]
  · -- legacy send
    unfold process_send at hp
    repeat' split at hp
    all_goals simp only [process_return.mk.injEq] at hp
    all_goals first
      | (obtain ⟨-, hst⟩ := hp
         refine Or.inl ⟨_, _, _, _, _, _, _, _, ?_, Or.inl rfl, hst.symm⟩
         assumption)
      | exact absurd hp.1 (by simp)
  · -- legacy receive
    unfold process_receive at hp
    repeat' split at hp
    all_goals simp only [process_return.mk.injEq] at hp
    all_goals first
      | (obtain ⟨-, hst⟩ := hp
         refine Or.inl ⟨_, _, _, _, _, _, _, _, ?_, Or.inl rfl, hst.symm⟩
         assumption)
      | exact absurd hp.1 (by simp)
  · -- legacy open
    unfold process_open at hp
    repeat' split at hp
    all_goals simp only [process_return.mk.injEq] at hp
    all_goals first
      | (obtain ⟨-, hst⟩ := hp
         refine Or.inr ⟨_, _, _, ?_, hst.symm⟩
         assumption)
      | exact absurd hp.1 (by simp)
  · -- legacy change
    unfold process_change at hp
    repeat' split at hp
    all_goals simp only [process_return.mk.injEq] at hp
    all_goals first
      | (obtain ⟨-, hst⟩ := hp
         refine Or.inl ⟨_, _, _, _, _, _, _, _, ?_, Or.inr rfl, hst.symm⟩
         assumption)
      | exact absurd hp.1 (by simp)
  · -- state block
    unfold process_state at hp
    repeat' split at hp
    all_goals simp only [process_return.mk.injEq] at hp
    all_goals first
      | (obtain ⟨-, hst⟩ := hp
         refine Or.inl ⟨_, _, _, _, _, _, _, _, ?_, Or.inr rfl, hst.symm⟩
         assumption)
      | (obtain ⟨-, hst⟩ := hp
         refine Or.inr ⟨_, _, _, ?_, hst.symm⟩
         assumption)
      | exact absurd hp.1 (by simp)

theorem undo_extend_inv (s s2 : Store) (A h prev : Nat)
    (info : account_info) (sbp : stored_block)
    (pend : Nat → Nat → Option pending_info) (S : Finset Nat)
    (hA : s.accounts A = some info) (hinv : inv_ok S s)
    (hs2 : s2 = undo_extend s A h prev info sbp (rep_of s info.rep_block)
      info.balance pend) :
    inv_ok S s2 := by
  obtain ⟨h0, haS, hrS, hsum⟩ := hinv
  refine ⟨h0, ?_, ?_, ?_⟩
  · intro a i hai
    by_cases hx : a = A
    · exact hx ▸ haS A info hA
    · apply haS a i
      rw [hs2] at hai
      simpa [undo_extend, upd1, hx] using hai
  · intro x
    have hb : s2.blocks = upd1 s.blocks h none := by rw [hs2]; rfl
    by_cases hx : x = h
    · simp [rep_of, hb, upd1, hx, h0]
    · have hre : rep_of s2 x = rep_of s x := by simp [rep_of, hb, upd1, hx]
      rw [hre]
      exact hrS x
  · have hw : wsum s2 S = wsum s S - info.balance + sbp.balance :=
      wsum_of_rep_addsub s s2 (rep_of s info.rep_block)
        (rep_of s sbp.rep_block) info.balance sbp.balance S
        (by rw [hs2]; rfl) (hrS _) (hrS _)
    have hbm : bsum s2 S = bsum s S + (sbp.balance - acct_bal s A) :=
      bsum_upd_some s s2 A _ S (by rw [hs2]; rfl) (haS A info hA)
    rw [hw, hbm, acct_bal_some s A info hA, hsum]
    ring

theorem undo_open_inv (s s2 : Store) (A h : Nat) (info : account_info)
    (pend : Nat → Nat → Option pending_info) (S : Finset Nat)
    (hA : s.accounts A = some info) (hinv : inv_ok S s)
    (hs2 : s2 = undo_open s A h (rep_of s info.rep_block)
      info.balance pend) :
    inv_ok S s2 := by
  obtain ⟨h0, haS, hrS, hsum⟩ := hinv
  refine ⟨h0, ?_, ?_, ?_⟩
  · intro a i hai
    rw [hs2] at hai
    by_cases hx : a = A
    · simp [undo_open, upd1, hx] at hai
    · exact haS a i (by simpa [undo_open, upd1, hx] using hai)
  · intro x
    have hb : s2.blocks = upd1 s.blocks h none := by rw [hs2]; rfl
    by_cases hx : x = h
    · simp [rep_of, hb, upd1, hx, h0]
    · have hre : rep_of s2 x = rep_of s x := by simp [rep_of, hb, upd1, hx]
      rw [hre]
      exact hrS x
  · have hw : wsum s2 S = wsum s S - info.balance :=
      wsum_of_rep_sub s s2 (rep_of s info.rep_block) info.balance S
        (by rw [hs2]; rfl) (hrS _)
    have hbm : bsum s2 S = bsum s S - acct_bal s A :=
      bsum_upd_none s s2 A S (by rw [hs2]; rfl) (haS A info hA)
    rw [hw, hbm, acct_bal_some s A info hA, hsum]

/-- The rollback engine preserves the support conditions and invariant P4:
undoing head blocks only moves weight between representatives resolvable
from stored blocks, in step with the balances it restores. -/
theorem rollback_loop_inv (cfg : ledger_config) (S : Finset Nat) :
    ∀ fuel,
      (∀ s A s', inv_ok S s → undo_head cfg fuel s A = some s' →
        inv_ok S s') ∧
      (∀ s h s', inv_ok S s → rollback_loop cfg fuel s h = some s' →
        inv_ok S s') := by
  intro fuel
  induction fuel with
  | zero =>
    constructor
    · intro s A s' _ hu
      simp [undo_head] at hu
    · intro s h s' _ hu
      simp [rollback_loop] at hu
  | succ fuel ih =>
    constructor
    · intro s A s' hinv hu
      rcases hacc : s.accounts A with _ | info
      · simp [undo_head, hacc] at hu
      rcases hhd : s.blocks info.head with _ | sb
      · simp [undo_head, hacc, hhd] at hu
      rcases hk : sb.blk.kind with ⟨prev, dest, sbal⟩ | ⟨prev, src⟩ | ⟨src, srep, sacct⟩ | ⟨prev, srep⟩ | ⟨sacct, prev, srep, sbal, link⟩
      · -- send head
        rcases hbp : s.blocks prev with _ | sbp
        · simp [undo_head, hacc, hhd, hk, hbp] at hu
        rcases hpd : s.pending dest info.head with _ | pnd
        · -- consumed pending: cascade then retry
          rcases hda : s.accounts dest with _ | dinfo
          · simp [undo_head, hacc, hhd, hk, hbp, hpd, hda] at hu
          rcases hrl : rollback_loop cfg fuel s dinfo.head with _ | t
          · simp [undo_head, hacc, hhd, hk, hbp, hpd, hda, hrl] at hu
          have h2 : undo_head cfg fuel t A = some s' := by
            simpa [undo_head, hacc, hhd, hk, hbp, hpd, hda, hrl] using hu
          exact ih.1 t A s' (ih.2 s dinfo.head t hinv hrl) h2
        · simp only [undo_head, hacc, hhd, hk, hbp, hpd] at hu
          exact undo_extend_inv s s' A info.head prev info sbp _ S hacc
            hinv (Option.some.inj hu).symm
      · -- receive head
        rcases hbp : s.blocks prev with _ | sbp
        · simp [undo_head, hacc, hhd, hk, hbp] at hu
        rcases hbs : s.blocks src with _ | sbs
        · simp [undo_head, hacc, hhd, hk, hbp, hbs] at hu
        simp only [undo_head, hacc, hhd, hk, hbp, hbs] at hu
        exact undo_extend_inv s s' A info.head prev info sbp _ S hacc
          hinv (Option.some.inj hu).symm
      · -- open head
        rcases hbs : s.blocks src with _ | sbs
        · simp [undo_head, hacc, hhd, hk, hbs] at hu
        simp only [undo_head, hacc, hhd, hk, hbs] at hu
        exact undo_open_inv s s' A info.head info _ S hacc hinv
          (Option.some.inj hu).symm
      · -- change head
        rcases hbp : s.blocks prev with _ | sbp
        · simp [undo_head, hacc, hhd, hk, hbp] at hu
        simp only [undo_head, hacc, hhd, hk, hbp] at hu
        exact undo_extend_inv s s' A info.head prev info sbp _ S hacc
          hinv (Option.some.inj hu).symm
      · -- state head
        by_cases hp0 : prev = 0
        · by_cases hep : is_epoch_block cfg sb.blk link = true
          · simp [undo_head, hacc, hhd, hk, hp0, hep] at hu
            exact undo_open_inv s s' A info.head info _ S hacc hinv
              hu.symm
          · rcases hbs : s.blocks link with _ | sbs
            · simp [undo_head, hacc, hhd, hk, hp0, hep, hbs] at hu
            simp [undo_head, hacc, hhd, hk, hp0, hep, hbs] at hu
            exact undo_open_inv s s' A info.head info _ S hacc hinv
              hu.symm
        · rcases hbp : s.blocks prev with _ | sbp
          · simp [undo_head, hacc, hhd, hk, hp0, hbp] at hu
          by_cases hlt : sbal < sbp.balance
          · rcases hpd : s.pending link info.head with _ | pnd
            · -- consumed pending: cascade then retry
              rcases hda : s.accounts link with _ | dinfo
              · simp [undo_head, hacc, hhd, hk, hp0, hbp, hlt, hpd,
                  hda] at hu
              rcases hrl : rollback_loop cfg fuel s dinfo.head with _ | t
              · simp [undo_head, hacc, hhd, hk, hp0, hbp, hlt, hpd, hda,
                  hrl] at hu
              have h2 : undo_head cfg fuel t A = some s' := by
                simpa [undo_head, hacc, hhd, hk, hp0, hbp, hlt, hpd, hda,
                  hrl] using hu
              exact ih.1 t A s' (ih.2 s dinfo.head t hinv hrl) h2
            · simp [undo_head, hacc, hhd, hk, hp0, hbp, hlt, hpd] at hu
              exact undo_extend_inv s s' A info.head prev info sbp _ S
                hacc hinv hu.symm
          · rcases hep2 : is_epoch_block cfg sb.blk link with _ | _
            · by_cases hl0 : link = 0
              · simp [undo_head, hacc, hhd, hk, hp0, hbp, hlt, hep2,
                  hl0] at hu
                exact undo_extend_inv s s' A info.head prev info sbp _ S
                  hacc hinv hu.symm
              · rcases hbs : s.blocks link with _ | sbs
                · simp [undo_head, hacc, hhd, hk, hp0, hbp, hlt, hep2,
                    hl0, hbs] at hu
                simp [undo_head, hacc, hhd, hk, hp0, hbp, hlt, hep2,
                  hl0, hbs] at hu
                exact undo_extend_inv s s' A info.head prev info sbp _ S
                  hacc hinv hu.symm
            · simp [undo_head, hacc, hhd, hk, hp0, hbp, hlt, hep2] at hu
              exact undo_extend_inv s s' A info.head prev info sbp _ S
                hacc hinv hu.symm
    · intro s h s' hinv hu
      rcases hb : s.blocks h with _ | sb
      · have he : s = s' := by simpa [rollback_loop, hb] using hu
        rwa [← he]
      rcases hul : undo_head cfg fuel s sb.account with _ | t
      · simp [rollback_loop, hb, hul] at hu
      have h2 : rollback_loop cfg fuel t h = some s' := by
        simpa [rollback_loop, hb, hul] using hu
      exact ih.2 t h s' (ih.1 s sb.account t hinv hul) h2

/-- C3: invariant P4 and send weight accounting.  (1) A block accepted by
the processor preserves the equality of total representation weight and
total opened balance over every adequate support set (`inv_ok`) that also
contains the block's named account and representative.  (2) A successful
rollback preserves the same equality over every adequate support set.
(3) An accepted legacy send debits the representative resolved at the
sender's rep block by exactly the sent amount, increases no
representative's weight, and parks the amount in a pending entry keyed by
(destination, hash) until it is received. -/
theorem weight_sum_invariant :
    (∀ cfg s h b s2 S,
        process cfg s h b = ⟨process_result.progress, s2⟩ →
        inv_ok S s → blk_account b.kind ∈ S →
        block_representative b.kind ∈ S →
        wsum s2 S = bsum s2 S) ∧
    (∀ cfg s h s1 S, rollback cfg s h = some s1 → inv_ok S s →
        wsum s1 S = bsum s1 S) ∧
    (∀ cfg s h prev dest bal (b : Block) s2,
        b.kind = block_kind.send_block prev dest bal →
        process cfg s h b = ⟨process_result.progress, s2⟩ →
        ∃ A info, s.frontier prev = some A ∧ s.accounts A = some info ∧
          s2.rep (rep_of s info.rep_block) =
            s.rep (rep_of s info.rep_block) - (info.balance - bal) ∧
          (∀ r, s2.rep r ≤ s.rep r) ∧
          s2.pending dest h =
            some ⟨A, info.balance - bal, info.epoch⟩) := by
  refine ⟨?_, ?_, ?_⟩
  · intro cfg s h b s2 S hp hinv hba hbr
    obtain ⟨h0, haS, hrS, hsum⟩ := hinv
    rcases process_progress_shape cfg s h b s2 hp with
      ⟨A, info, prev, nbal, nrb, nep, r_new, pend, hA, hrn, hs2⟩ |
      ⟨bal, ep, pend, hA, hs2⟩
    · have hw : wsum s2 S = wsum s S - info.balance + nbal :=
        wsum_of_rep_addsub s s2 (rep_of s info.rep_block) r_new
          info.balance nbal S (by rw [hs2]; rfl) (hrS _)
          (by rcases hrn with hr | hr
              · rw [hr]; exact hrS _
              · rw [hr]; exact hbr)
      have hbm : bsum s2 S = bsum s S + (nbal - acct_bal s A) :=
        bsum_upd_some s s2 A _ S (by rw [hs2]; rfl) (haS A info hA)
      rw [hw, hbm, acct_bal_some s A info hA, hsum]
      ring
    · have hw : wsum s2 S = wsum s S + bal :=
        wsum_of_rep_add s s2 (block_representative b.kind) bal S
          (by rw [hs2]; rfl) hbr
      have hbm : bsum s2 S =
          bsum s S + (bal - acct_bal s (blk_account b.kind)) :=
        bsum_upd_some s s2 (blk_account b.kind) _ S
          (by rw [hs2]; rfl) hba
      rw [hw, hbm, acct_bal_none s _ hA, hsum]
      ring
  · intro cfg s h s1 S hr hinv
    exact ((rollback_loop_inv cfg S (s.count + 2)).2 s h s1 hinv hr).2.2.2
  · intro cfg s h prev dest bal b s2 hbk hp
    rcases hwk : b.work_ok with _ | _
    · simp [process, hwk] at hp
    rcases hold : (s.blocks h).isSome with _ | _
    swap
    · simp [process, hwk, hold] at hp
    have hbh : s.blocks h = none := by
      rcases hx : s.blocks h with _ | v
      · rfl
      · rw [hx] at hold
        cases hold
    simp only [process, hwk, hbh, hbk, Option.isSome_none] at hp
    rcases hfp : s.blocks prev with _ | sbp0
    · simp [process_send, hfp] at hp
    rcases hfr : s.frontier prev with _ | A
    · simp [process_send, hfp, hfr] at hp
    by_cases hsig : b.signer = A
    swap
    · simp [process_send, hfp, hfr, hsig] at hp
    rcases hacc : s.accounts A with _ | info
    · simp [process_send, hfp, hfr, hsig, hacc] at hp
    by_cases hhead : info.head = prev
    swap
    · simp [process_send, hfp, hfr, hsig, hacc, hhead] at hp
    rcases hleg : legacy_blocked s info with _ | _
    swap
    · simp [process_send, hfp, hfr, hsig, hacc, hhead, hleg] at hp
    by_cases hlt : info.balance < bal
    · simp [process_send, hfp, hfr, hsig, hacc, hhead, hleg, hlt] at hp
    simp [process_send, hfp, hfr, hsig, hacc, hhead, hleg, hlt] at hp
    subst hp
    refine ⟨A, info, rfl, hacc, ?_, ?_, ?_⟩
    · simp [extend_store, repAdd, repSub, upd1]
      ring
    · intro r
      by_cases hr : r = rep_of s info.rep_block
      · simp [extend_store, repAdd, repSub, upd1, hr]
        omega
      · simp [extend_store, repAdd, repSub, upd1, hr]
    · simp [extend_store, upd2]

/-- Concrete instance of the weight-sum invariant: after the fixture legacy
send, total weight still equals total opened balance over the support set
containing the burn representative and the genesis account. -/
theorem weight_sum_invariant_witness :
    wsum store_after_send ({0, 10} : Finset Nat) =
      bsum store_after_send ({0, 10} : Finset Nat) :=
  weight_sum_invariant.1 test_cfg genesis_store 2 fix_send store_after_send
    {0, 10} rfl
    ⟨by decide,
     by
      intro a i ha
      by_cases h10 : a = 10
      · subst h10
        decide
      · simp [genesis_store, ledger_init, upd1, h10] at ha,
     by
      intro x
      by_cases h1 : x = 1
      · subst h1
        decide
      · simp [rep_of, genesis_store, ledger_init, upd1, h1],
     by decide⟩
    (by decide) (by decide)

end Btcb
